import Mathlib

/-!
Verification development for the Intrear AST-node interpreter core
(`src/interpreter.ts`).  The TypeScript source is shallowly embedded:

* the structural `Type` union becomes the inductive `Ty`, and
  `compareTypes` is translated clause by clause;
* the runtime (`ExecutionContext`, the AST node classes' `execute`
  methods, closures and memoization) becomes a fuel-indexed interpreter
  `exec` over an explicit `Store` of context frames and closures, with
  the thrown `ReturnSignal` / `BreakSignal` / `ContinueSignal` / `Error`
  values represented by the `Signal` type inside `Except`;
* the inference pass (`inferType` methods over `TypeEnvironment`)
  becomes `inferType` over a stack of type frames.

JavaScript behaviour that no claim depends on and that has no exact
counterpart in the model (float formatting, implicit numeric coercion
in some built-ins, `now`/`random`/`fetch` host calls) is left
unmodelled: the interpreter returns `none` there, exactly as it does on
fuel exhaustion.
-/

namespace Intrear

/-! ## 1. Type model (`Type`, `compareTypes`) -/

/-- The structural type value (`export type Type` in the source): nine
primitive tags, function types, array types and object types. -/
inductive Ty where
  | number | string | boolean | null | undefined | bigint | symbol | void | any
  | func (paramTypes : List Ty) (returnType : Ty)
  | arr (elementType : Ty)
  | obj (properties : List (String × Ty))
deriving Repr

/-- Association-list lookup used to model `key in rec && rec[key]` on a
`Record<string, Type>` (whose keys are unique). -/
def lookupTy (k : String) : List (String × Ty) → Option Ty
  | [] => none
  | (k', t) :: rest => if k' = k then some t else lookupTy k rest

mutual

/-- `compareTypes` from the source, clause by clause: primitives compare
by tag identity (`a === b`), function types by positional parameter
comparison then return type, array types by element type, object types
by key-count equality plus per-key membership-and-comparison of the
first operand's keys in the second operand. -/
def compareTypes : Ty → Ty → Bool
  | .number, .number => true
  | .string, .string => true
  | .boolean, .boolean => true
  | .null, .null => true
  | .undefined, .undefined => true
  | .bigint, .bigint => true
  | .symbol, .symbol => true
  | .void, .void => true
  | .any, .any => true
  | .func ap ar, .func bp br => compareTypesList ap bp && compareTypes ar br
  | .arr ae, .arr be => compareTypes ae be
  | .obj aps, .obj bps => (aps.length == bps.length) && compareProps aps bps
  | _, _ => false
termination_by structural a _ => a

/-- The indexed loop over `paramTypes`: the source first rejects unequal
lengths, then compares positionally; this list recursion does both. -/
def compareTypesList : List Ty → List Ty → Bool
  | [], [] => true
  | a :: as', b :: bs' => compareTypes a b && compareTypesList as' bs'
  | _, _ => false
termination_by structural as' _ => as'

/-- The `for (let key of aKeys)` loop body: each key of the first object
must occur in the second with a structurally equal type. -/
def compareProps : List (String × Ty) → List (String × Ty) → Bool
  | [], _ => true
  | (k, t) :: rest, bps =>
      match lookupTy k bps with
      | some bt => compareTypes t bt && compareProps rest bps
      | none => false
termination_by structural aps _ => aps

end

/-- Pairwise-distinct keys of a property list. -/
def keysNodup : List (String × Ty) → Bool
  | [] => true
  | (k, _) :: rest => (!(rest.any (fun p => p.1 = k))) && keysNodup rest

mutual

/-- Well-formedness of a `Ty`: object property lists have pairwise
distinct keys (the invariant `Record<string, Type>` guarantees in the
source), recursively. -/
def wfTy : Ty → Bool
  | .func ps r => wfTyList ps && wfTy r
  | .arr e => wfTy e
  | .obj ps => keysNodup ps && wfTyProps ps
  | _ => true
termination_by structural t => t

/-- Well-formedness of every element of a parameter list. -/
def wfTyList : List Ty → Bool
  | [] => true
  | t :: ts => wfTy t && wfTyList ts
termination_by structural ts => ts

/-- Well-formedness of every property type of an object type. -/
def wfTyProps : List (String × Ty) → Bool
  | [] => true
  | (_, t) :: rest => wfTy t && wfTyProps rest
termination_by structural ps => ps

end

/-! ### Lemmas about `compareTypes` -/

theorem Ty.one_le_sizeOf (a : Ty) : 1 ≤ sizeOf a := by
  cases a <;> simp_arith

theorem keysNodup_cons {k : String} {t : Ty} {rest : List (String × Ty)} :
    keysNodup ((k, t) :: rest) = true ↔
      (∀ p ∈ rest, p.1 ≠ k) ∧ keysNodup rest = true := by
  simp [keysNodup]

theorem lookupTy_mem {k : String} {l : List (String × Ty)} {t : Ty}
    (h : lookupTy k l = some t) : (k, t) ∈ l := by
  induction l with
  | nil => simp [lookupTy] at h
  | cons p rest ih =>
    obtain ⟨k', t'⟩ := p
    by_cases hk : k' = k
    · subst hk
      have ht : t' = t := by simpa [lookupTy] using h
      subst ht; exact List.mem_cons_self _ _
    · simp only [lookupTy, if_neg hk] at h
      exact List.mem_cons_of_mem _ (ih h)

theorem lookupTy_of_mem_nodup {k : String} {t : Ty} {l : List (String × Ty)}
    (hn : keysNodup l = true) (hm : (k, t) ∈ l) : lookupTy k l = some t := by
  induction l with
  | nil => simp at hm
  | cons p rest ih =>
    obtain ⟨k', t'⟩ := p
    obtain ⟨hnk, hn'⟩ := keysNodup_cons.mp hn
    rcases List.mem_cons.mp hm with h | h
    · cases h
      simp [lookupTy]
    · have hne : k' ≠ k := fun he => hnk _ h (by simpa using he.symm)
      simp only [lookupTy, if_neg hne]
      exact ih hn' h

theorem keysNodup_iff {l : List (String × Ty)} :
    keysNodup l = true ↔ (l.map Prod.fst).Nodup := by
  induction l with
  | nil => simp [keysNodup]
  | cons p rest ih =>
    obtain ⟨k, t⟩ := p
    rw [keysNodup_cons]
    simp only [List.map_cons, List.nodup_cons, ih, List.mem_map]
    constructor
    · rintro ⟨h1, h2⟩
      exact ⟨fun ⟨q, hq, he⟩ => h1 q hq he, h2⟩
    · rintro ⟨h1, h2⟩
      exact ⟨fun q hq he => h1 ⟨q, hq, he⟩, h2⟩

theorem compareProps_eq_true_iff {aps bps : List (String × Ty)} :
    compareProps aps bps = true ↔
      ∀ p ∈ aps, ∃ bt, lookupTy p.1 bps = some bt ∧ compareTypes p.2 bt = true := by
  induction aps with
  | nil => simp [compareProps]
  | cons a rest ih =>
    obtain ⟨k, t⟩ := a
    constructor
    · intro h
      simp only [compareProps] at h
      cases hl : lookupTy k bps with
      | none => rw [hl] at h; simp at h
      | some bt =>
        rw [hl] at h
        simp only [Bool.and_eq_true] at h
        intro p hp
        rcases List.mem_cons.mp hp with hh | hh
        · subst hh; exact ⟨bt, hl, h.1⟩
        · exact ih.mp h.2 p hh
    · intro h
      obtain ⟨bt, hbt, hc⟩ := h (k, t) (List.mem_cons_self _ _)
      simp only [compareProps, hbt, Bool.and_eq_true]
      exact ⟨hc, ih.mpr fun p hp => h p (List.mem_cons_of_mem _ hp)⟩

theorem wfTyList_mem {ps : List Ty} {t : Ty} (h : wfTyList ps = true) (hm : t ∈ ps) :
    wfTy t = true := by
  induction ps with
  | nil => simp at hm
  | cons a rest ih =>
    simp only [wfTyList, Bool.and_eq_true] at h
    rcases List.mem_cons.mp hm with hh | hh
    · subst hh; exact h.1
    · exact ih h.2 hh

theorem wfTyProps_mem {ps : List (String × Ty)} {k : String} {t : Ty}
    (h : wfTyProps ps = true) (hm : (k, t) ∈ ps) : wfTy t = true := by
  induction ps with
  | nil => simp at hm
  | cons a rest ih =>
    obtain ⟨k', t'⟩ := a
    simp only [wfTyProps, Bool.and_eq_true] at h
    rcases List.mem_cons.mp hm with hh | hh
    · obtain ⟨_, ht⟩ := Prod.mk.injEq .. ▸ hh
      subst ht; exact h.1
    · exact ih h.2 hh

theorem compareTypesList_refl {ps : List Ty}
    (h : ∀ x ∈ ps, compareTypes x x = true) : compareTypesList ps ps = true := by
  induction ps with
  | nil => rfl
  | cons a rest ih =>
    simp only [compareTypesList, Bool.and_eq_true]
    exact ⟨h a (List.mem_cons_self _ _), ih fun x hx => h x (List.mem_cons_of_mem _ hx)⟩

theorem compareTypesList_symm_aux :
    ∀ {as' bs' : List Ty},
      (∀ x y, x ∈ as' → y ∈ bs' → compareTypes x y = true → compareTypes y x = true) →
      compareTypesList as' bs' = true → compareTypesList bs' as' = true := by
  intro as'
  induction as' with
  | nil => intro bs' _ h; cases bs' <;> simp_all [compareTypesList]
  | cons a rest ih =>
    intro bs' hsym h
    cases bs' with
    | nil => simp [compareTypesList] at h
    | cons b bs'' =>
      simp only [compareTypesList, Bool.and_eq_true] at h ⊢
      refine ⟨hsym a b (List.mem_cons_self _ _) (List.mem_cons_self _ _) h.1, ?_⟩
      exact ih (fun x y hx hy => hsym x y (List.mem_cons_of_mem _ hx)
        (List.mem_cons_of_mem _ hy)) h.2

theorem compareTypes_refl_aux :
    ∀ (n : Nat) (a : Ty), sizeOf a ≤ n → wfTy a = true → compareTypes a a = true := by
  intro n
  induction n with
  | zero => intro a hs _; have := Ty.one_le_sizeOf a; omega
  | succ n ih =>
    intro a hs hwa
    cases a with
    | func ap ar =>
      simp only [wfTy, Bool.and_eq_true] at hwa
      have hsz : sizeOf (Ty.func ap ar) = 1 + sizeOf ap + sizeOf ar := by simp_arith
      simp only [compareTypes, Bool.and_eq_true]
      refine ⟨compareTypesList_refl fun x hx => ?_, ih ar (by omega) hwa.2⟩
      have := List.sizeOf_lt_of_mem hx
      exact ih x (by omega) (wfTyList_mem hwa.1 hx)
    | arr ae =>
      have hsz : sizeOf (Ty.arr ae) = 1 + sizeOf ae := by simp_arith
      simp only [compareTypes]
      exact ih ae (by omega) hwa
    | obj aps =>
      simp only [wfTy, Bool.and_eq_true] at hwa
      have hsz : sizeOf (Ty.obj aps) = 1 + sizeOf aps := by simp_arith
      simp only [compareTypes, Bool.and_eq_true, beq_self_eq_true, true_and]
      refine compareProps_eq_true_iff.mpr fun p hp => ?_
      obtain ⟨k, t⟩ := p
      refine ⟨t, lookupTy_of_mem_nodup hwa.1 hp, ?_⟩
      have h1 := List.sizeOf_lt_of_mem hp
      have h2 : sizeOf ((k, t) : String × Ty) = 1 + sizeOf k + sizeOf t := by simp_arith
      exact ih t (by omega) (wfTyProps_mem hwa.2 hp)
    | number => rfl
    | string => rfl
    | boolean => rfl
    | null => rfl
    | undefined => rfl
    | bigint => rfl
    | symbol => rfl
    | void => rfl
    | any => rfl

theorem compareTypes_symm_aux :
    ∀ (n : Nat) (a b : Ty), sizeOf a + sizeOf b ≤ n → wfTy a = true → wfTy b = true →
      compareTypes a b = true → compareTypes b a = true := by
  intro n
  induction n with
  | zero => intro a b hs _ _ _; have := Ty.one_le_sizeOf a; omega
  | succ n ih =>
    intro a b hs hwa hwb hab
    cases a <;> cases b <;> first
    | exact hab
    | exact Bool.noConfusion hab
    | skip
    case func.func ap ar bp br =>
      have hsa : sizeOf (Ty.func ap ar) = 1 + sizeOf ap + sizeOf ar := by simp_arith
      have hsb : sizeOf (Ty.func bp br) = 1 + sizeOf bp + sizeOf br := by simp_arith
      simp only [wfTy, Bool.and_eq_true] at hwa hwb
      simp only [compareTypes, Bool.and_eq_true] at hab ⊢
      refine ⟨compareTypesList_symm_aux (fun x y hx hy hxy => ?_) hab.1,
        ih ar br (by omega) hwa.2 hwb.2 hab.2⟩
      have h1 := List.sizeOf_lt_of_mem hx
      have h2 := List.sizeOf_lt_of_mem hy
      exact ih x y (by omega) (wfTyList_mem hwa.1 hx) (wfTyList_mem hwb.1 hy) hxy
    case arr.arr ae be =>
      have hsa : sizeOf (Ty.arr ae) = 1 + sizeOf ae := by simp_arith
      have hsb : sizeOf (Ty.arr be) = 1 + sizeOf be := by simp_arith
      simp only [compareTypes] at hab ⊢
      exact ih ae be (by omega) hwa hwb hab
    case obj.obj aps bps =>
      have hsa : sizeOf (Ty.obj aps) = 1 + sizeOf aps := by simp_arith
      have hsb : sizeOf (Ty.obj bps) = 1 + sizeOf bps := by simp_arith
      simp only [wfTy, Bool.and_eq_true] at hwa hwb
      simp only [compareTypes, Bool.and_eq_true, beq_iff_eq] at hab ⊢
      obtain ⟨hlen, hprops⟩ := hab
      have hmem := compareProps_eq_true_iff.mp hprops
      -- every key of `aps` occurs among the keys of `bps`
      have hsub : (aps.map Prod.fst) ⊆ (bps.map Prod.fst) := by
        intro x hx
        obtain ⟨⟨k, t⟩, hp, he⟩ := List.mem_map.mp hx
        obtain ⟨bt, hbt, _⟩ := hmem (k, t) hp
        exact he ▸ List.mem_map.mpr ⟨(k, bt), lookupTy_mem hbt, rfl⟩
      have hka : (aps.map Prod.fst).Nodup := keysNodup_iff.mp hwa.1
      have hkb : (bps.map Prod.fst).Nodup := keysNodup_iff.mp hwb.1
      have hperm : (aps.map Prod.fst).Perm (bps.map Prod.fst) :=
        (hka.subperm hsub).perm_of_length_le (by simp [hlen])
      refine ⟨hlen.symm, compareProps_eq_true_iff.mpr fun p hp => ?_⟩
      obtain ⟨k, tb⟩ := p
      -- the key also occurs in `aps`
      have hkmem : k ∈ aps.map Prod.fst :=
        hperm.mem_iff.mpr (List.mem_map.mpr ⟨(k, tb), hp, rfl⟩)
      obtain ⟨⟨k', ta⟩, hpa, hke⟩ := List.mem_map.mp hkmem
      have hke' : k' = k := hke
      subst hke'
      obtain ⟨bt, hbt, hcmp⟩ := hmem (k', ta) hpa
      have hbt' : bt = tb := by
        have := lookupTy_of_mem_nodup hwb.1 hp
        rw [this] at hbt; exact (Option.some.injEq .. ▸ hbt.symm)
      subst hbt'
      refine ⟨ta, lookupTy_of_mem_nodup hwa.1 hpa, ?_⟩
      have h1 := List.sizeOf_lt_of_mem hpa
      have h2 := List.sizeOf_lt_of_mem hp
      have h3 : sizeOf ((k', ta) : String × Ty) = 1 + sizeOf k' + sizeOf ta := by simp_arith
      have h4 : sizeOf ((k', bt) : String × Ty) = 1 + sizeOf k' + sizeOf bt := by simp_arith
      exact ih ta bt (by omega) (wfTyProps_mem hwa.2 hpa) (wfTyProps_mem hwb.2 hp) hcmp

theorem compareTypes_symm {a b : Ty} (ha : wfTy a = true) (hb : wfTy b = true) :
    compareTypes a b = compareTypes b a := by
  cases hab : compareTypes a b with
  | true => exact (compareTypes_symm_aux _ a b le_rfl ha hb hab).symm
  | false =>
    cases hba : compareTypes b a with
    | false => rfl
    | true =>
      have h2 := compareTypes_symm_aux _ b a le_rfl hb ha hba
      rw [hab] at h2
      exact Bool.noConfusion h2

/-- C2: for well-formed `Type` values, `compareTypes` is reflexive and
symmetric; it recurses structurally through function types (positional
parameter comparison, then return type), array types (element type) and
object types (key-count check plus per-key comparison); and
`compareTypes("any", "number")` is `false` — the `"any"` tag equals only
another `"any"` and is not a universal wildcard. -/
theorem compareTypes_equivalence_and_any_not_wildcard :
    (∀ a : Ty, wfTy a = true → compareTypes a a = true) ∧
    (∀ a b : Ty, wfTy a = true → wfTy b = true →
      compareTypes a b = compareTypes b a) ∧
    (∀ ap ar bp br, compareTypes (.func ap ar) (.func bp br)
      = (compareTypesList ap bp && compareTypes ar br)) ∧
    (∀ ae be, compareTypes (.arr ae) (.arr be) = compareTypes ae be) ∧
    (∀ aps bps, compareTypes (.obj aps) (.obj bps)
      = ((aps.length == bps.length) && compareProps aps bps)) ∧
    compareTypes .any .number = false ∧ compareTypes .any .any = true := by
  refine ⟨fun a ha => compareTypes_refl_aux _ a le_rfl ha,
    fun a b ha hb => compareTypes_symm ha hb,
    fun _ _ _ _ => rfl, fun _ _ => rfl, fun _ _ => rfl, rfl, rfl⟩

/-- Witness for C2 at concrete nested types: a well-formed object type
containing a function type and an array type is equal to itself, and
comparison with a second concrete type is symmetric. -/
theorem compareTypes_equivalence_witness :
    wfTy (Ty.obj [("f", .func [.number] .string), ("a", .arr .any)]) = true ∧
    compareTypes (Ty.obj [("f", .func [.number] .string), ("a", .arr .any)])
      (Ty.obj [("f", .func [.number] .string), ("a", .arr .any)]) = true ∧
    compareTypes (Ty.obj [("f", .func [.number] .string), ("a", .arr .any)])
      (Ty.obj [("a", .arr .any), ("f", .func [.number] .string)])
      = compareTypes (Ty.obj [("a", .arr .any), ("f", .func [.number] .string)])
        (Ty.obj [("f", .func [.number] .string), ("a", .arr .any)]) := by
  refine ⟨by decide, ?_, ?_⟩
  · exact compareTypes_equivalence_and_any_not_wildcard.1 _ (by decide)
  · exact compareTypes_equivalence_and_any_not_wildcard.2.1 _ _ (by decide) (by decide)

/-! ## 2. Runtime values, signals, built-ins -/

/-- Names of the ten built-in callables injected by
`ExecutionContext.injectBuiltIns`. -/
inductive BName where
  | print | typeOf | now | random | isNaN | abs | sqrt | floor | ceil | fetch
deriving Repr, DecidableEq

/-- Runtime values of the modelled value set: JS numbers are modelled as
rationals (the claims only involve exactly representable numbers),
strings, booleans, `null`, `undefined`, closures (heap ids into the
store's closure list, since a closure carries a mutable memoization
cache), built-in callables, and caught `Error` objects (carrying their
message). -/
inductive Value where
  | num (q : Rat)
  | str (s : String)
  | bool (b : Bool)
  | null
  | undefV
  | closure (id : Nat)
  | builtin (b : BName)
  | exn (msg : String)
deriving Repr, DecidableEq

/-- The values thrown by the execution pass: the three control signals
(`ReturnSignal`, `BreakSignal`, `ContinueSignal`) and generic runtime
`Error`s (carrying their message). -/
inductive Signal where
  | ret (v : Value)
  | brk
  | cont
  | err (msg : String)
deriving Repr, DecidableEq

/-- Result of one `execute` call: a normal value or a thrown signal. -/
abbrev Exc := Except Signal Value

/-- `typeof` on the modelled values (`typeof null` is `"object"` in JS,
`Error` instances are objects, callables are `"function"`). -/
def typeofStr : Value → String
  | .num _ => "number"
  | .str _ => "string"
  | .bool _ => "boolean"
  | .undefV => "undefined"
  | .null => "object"
  | .closure _ => "function"
  | .builtin _ => "function"
  | .exn _ => "object"

/-- JS truthiness of the modelled values (used only by the un-checked
do/while repeat condition). -/
def truthy : Value → Bool
  | .num q => decide (q ≠ 0)
  | .str s => decide (s ≠ "")
  | .bool b => b
  | .null => false
  | .undefV => false
  | _ => true

/-- The `got` rendering in the declaration type-check error:
`val === null ? "null" : Array.isArray(val) ? "array" : typeof val`. -/
def gotStr : Value → String
  | .null => "null"
  | v => typeofStr v

/-- The `typeChecks` record of `VariableDeclarationNode.execute`: maps a
declared kind to the runtime check's outcome on a value, or `none` when
the kind has no validator (`symbol`, `void`, `any`, or anything else),
which the source reports as an unsupported variable type.  The modelled
value set has no bigint/array/plain-object values, so those checks are
constantly false — except that an `Error` instance does satisfy the
`object` check. -/
def typeCheckJS (vt : String) (v : Value) : Option Bool :=
  if vt = "number" then some (match v with | .num _ => true | _ => false)
  else if vt = "string" then some (match v with | .str _ => true | _ => false)
  else if vt = "boolean" then some (match v with | .bool _ => true | _ => false)
  else if vt = "undefined" then some (match v with | .undefV => true | _ => false)
  else if vt = "null" then some (match v with | .null => true | _ => false)
  else if vt = "bigint" then some false
  else if vt = "array" then some false
  else if vt = "object" then some (match v with | .exn _ => true | _ => false)
  else none

/-- `String(v)` as used by `ErrorNode.execute`; JS float formatting of
non-integers and function/object sources are unmodelled. -/
def toStringJS : Value → Option String
  | .str s => some s
  | .bool b => some (if b then "true" else "false")
  | .null => some "null"
  | .undefV => some "undefined"
  | .num q => if q.den = 1 then some (toString q.num) else none
  | _ => none

/-- Canonical serialization of one value, standing in for
`JSON.stringify` inside `memoize`'s cache key: structurally identical
values serialize identically, distinct modelled numbers serialize
distinctly; `undefined` and functions inside an array stringify to
`null`, `Error` objects to an empty JSON object. -/
def serializeVal : Value → String
  | .num q => if q.den = 1 then toString q.num
      else toString q.num ++ "/" ++ toString q.den
  | .str s => "\"" ++ s ++ "\""
  | .bool b => if b then "true" else "false"
  | .null => "null"
  | .undefV => "null"
  | .closure _ => "null"
  | .builtin _ => "null"
  | .exn _ => "\x7b\x7d"

/-- `JSON.stringify(args)`: the memoization cache key. -/
def serializeArgs (args : List Value) : String :=
  "[" ++ String.intercalate "," (args.map serializeVal) ++ "]"

/-! ## 3. AST node set

The embedded node subset: every construct the claims mention, each
translated from its class in the source.  (`MethodCall`, array/object
literals, `IndexAssignment`, `PropertyAccess`, `Switch`, `ForEach` and
the custom-node factory are not involved in any claim and are left out
of the embedding.) -/

inductive Node where
  | lit (value : Value)
  | varRef (name : String)
  | varDecl (varType : String) (name : String) (expression : Node)
  | assign (name : String) (expression : Node)
  | retN (expression : Node)
  | brkN
  | contN
  | errN (message : Node)
  | fnLit (name : Option String) (params : List String) (body : List Node)
      (declaredParamTypes : Option (List Ty)) (declaredReturnType : Option Ty)
      (pureFlag : Bool)
  | arrowFn (paramNames : List String) (body : Node)
  | fnCall (functionName : String) (args : List Node)
  | block (statements : List Node)
  | ifN (condition : Node) (thenBranch : List Node) (elseBranch : Option (List Node))
  | signalN (signal : String)
  | whileN (condition : Node) (body : List Node)
  | forN (init : Node) (condition : Node) (update : Node) (body : List Node)
  | doWhileN (body : List Node) (condition : Node)
  | tryCatchN (tryBlock : List Node) (catchVar : String) (catchBlock : List Node)

/-! ## 4. Execution contexts and the store -/

/-- `Record<string, any>` assignment semantics: overwrite an existing
key in place, otherwise append. -/
def setEntry (k : String) (v : Value) : List (String × Value) → List (String × Value)
  | [] => [(k, v)]
  | (k', v') :: rest =>
      if k' = k then (k, v) :: rest else (k', v') :: setEntry k v rest

/-- `key in record` / `record[key]` lookup. -/
def assocFind (k : String) : List (String × Value) → Option Value
  | [] => none
  | (k', v) :: rest => if k' = k then some v else assocFind k rest

/-- The ten built-in bindings, in `injectBuiltIns`'s insertion order. -/
def builtinPairs : List (String × Value) :=
  [("print", .builtin .print), ("typeOf", .builtin .typeOf),
   ("now", .builtin .now), ("random", .builtin .random),
   ("isNaN", .builtin .isNaN), ("abs", .builtin .abs),
   ("sqrt", .builtin .sqrt), ("floor", .builtin .floor),
   ("ceil", .builtin .ceil), ("fetch", .builtin .fetch)]

/-- One `ExecutionContext`: its `variables` record, its parent link and
the two loop-signal flags.  The constructor runs `injectBuiltIns`, so a
fresh frame's record already holds the ten built-ins. -/
structure Frame where
  vars : List (String × Value)
  parent : Option Nat
  breakSignal : Bool
  continueSignal : Bool
deriving Repr, DecidableEq

/-- `new ExecutionContext(parent)`. -/
def newFrame (parent : Option Nat) : Frame :=
  ⟨builtinPairs, parent, false, false⟩

/-- The code of a closure: a block-style function literal (with its
`pure` flag) or an arrow function (single body expression). -/
inductive ClosKind where
  | fnlit (params : List String) (body : List Node) (pureFlag : Bool)
  | arrow (paramNames : List String) (body : Node)

/-- A closure value: its code, the context captured at `toFunction`
time, and the (mutable) memoization cache installed by `memoize` when
`pure` is set. -/
structure Closure where
  kind : ClosKind
  ctx : Nat
  cache : List (String × Value)

/-- The runtime heap: all context frames ever created (children always
point at earlier indices), all closures, and the `print` output trace. -/
structure Store where
  frames : List Frame
  clos : List Closure
  output : List (List Value)

/-- In-place update of one list element. -/
def listModify {α : Type} : List α → Nat → (α → α) → List α
  | [], _, _ => []
  | a :: rest, 0, f => f a :: rest
  | a :: rest, n+1, f => a :: listModify rest n f

/-- `context.createChildContext()`: allocates a fresh frame (with
built-ins injected) whose parent is the given frame. -/
def Store.pushFrame (st : Store) (parent : Option Nat) : Store × Nat :=
  ({ st with frames := st.frames ++ [newFrame parent] }, st.frames.length)

/-- `context.setVariable(name, value)`: always writes the current frame. -/
def Store.setVar (st : Store) (i : Nat) (n : String) (v : Value) : Store :=
  { st with frames :=
      listModify st.frames i (fun f => { f with vars := setEntry n v f.vars }) }

/-- `context.breakSignal = true` (the `SignalNode` flag mechanism). -/
def Store.setBreak (st : Store) (i : Nat) : Store :=
  { st with frames := listModify st.frames i (fun f => { f with breakSignal := true }) }

/-- `context.continueSignal = true`. -/
def Store.setContinue (st : Store) (i : Nat) : Store :=
  { st with frames := listModify st.frames i (fun f => { f with continueSignal := true }) }

/-- The `variables` record of frame `i`, if the frame exists. -/
def Store.frameVarsAt (st : Store) (i : Nat) : Option (List (String × Value)) :=
  (st.frames[i]?).map Frame.vars

/-- Direct lookup in frame `i`'s own record (no parent walk). -/
def Store.lookupVar (st : Store) (i : Nat) (n : String) : Option Value :=
  match st.frames[i]? with
  | none => none
  | some f => assocFind n f.vars

/-- Frame `i`'s `breakSignal` flag (`false` for a missing frame). -/
def Store.frameBreak (st : Store) (i : Nat) : Bool :=
  ((st.frames[i]?).map Frame.breakSignal).getD false

/-- `toFunction`: allocate a fresh closure over the active context, with
an empty memoization cache. -/
def Store.allocClos (st : Store) (k : ClosKind) (cctx : Nat) : Store × Value :=
  ({ st with clos := st.clos ++ [⟨k, cctx, []⟩] }, .closure st.clos.length)

/-- `cache.set(key, result)` on a closure's memoization cache. -/
def Store.cacheInsert (st : Store) (cid : Nat) (key : String) (v : Value) : Store :=
  { st with clos :=
      listModify st.clos cid (fun c => { c with cache := setEntry key v c.cache }) }

/-- `console.log(...args)`: append to the output trace. -/
def Store.addOutput (st : Store) (args : List Value) : Store :=
  { st with output := st.output ++ [args] }

/-- The memoization cache of closure `cid` (empty for a missing id). -/
def Store.cacheOf (st : Store) (cid : Nat) : List (String × Value) :=
  ((st.clos[cid]?).map Closure.cache).getD []

/-- `context.getVariable(name)`: walk the parent chain from frame `i`.
`some (some v)` = found, `some none` = unbound anywhere up the chain
(the source throws `Undefined variable`), `none` = the walk exceeded the
step bound (only possible on a malformed store). -/
def getVarChain (st : Store) : Nat → Nat → String → Option (Option Value)
  | 0, _, _ => none
  | steps+1, i, n =>
    match st.frames[i]? with
    | none => none
    | some f =>
      match assocFind n f.vars with
      | some v => some (some v)
      | none =>
        match f.parent with
        | some p => getVarChain st steps p n
        | none => some none

/-- `context.getVariable(name)` with the step bound fixed from the store
size (sufficient for every store the interpreter builds, since parents
always point at strictly earlier frames). -/
def Store.getVar (st : Store) (i : Nat) (n : String) : Option (Option Value) :=
  getVarChain st (st.frames.length + 1) i n

/-- `Math.abs` / `Math.floor` / `Math.ceil` / `isNaN` /`typeOf` /`print`
on modelled values; `now`, `random`, `sqrt` and `fetch` are host calls
with no exact model (clock, RNG, floats, network), and numeric coercion
of non-number arguments is likewise unmodelled: those cases yield
`none`, like fuel exhaustion. -/
def applyBuiltin (b : BName) (args : List Value) (st : Store) :
    Option (Store × Exc) :=
  match b with
  | .print => some (st.addOutput args, .ok .undefV)
  | .typeOf =>
    match args with
    | v :: _ => some (st, .ok (.str (typeofStr v)))
    | [] => some (st, .ok (.str "undefined"))
  | .abs =>
    match args with
    | .num q :: _ => some (st, .ok (.num |q|))
    | _ => none
  | .floor =>
    match args with
    | .num q :: _ => some (st, .ok (.num ((q.floor : Int) : Rat)))
    | _ => none
  | .ceil =>
    match args with
    | .num q :: _ => some (st, .ok (.num ((q.ceil : Int) : Rat)))
    | _ => none
  | .isNaN =>
    match args with
    | .num _ :: _ => some (st, .ok (.bool false))
    | _ => none
  | .sqrt => none
  | .now => none
  | .random => none
  | .fetch => none

/-- `this.params.forEach((p, i) => localCtx.setVariable(p, args[i]))`
under a checked equal argument count. -/
def bindParams (st : Store) (i : Nat) : List String → List Value → Store
  | [], _ => st
  | _ :: _, [] => st
  | pn :: ps, v :: vs => bindParams (st.setVar i pn v) i ps vs

/-- Arrow-function binding: `childCtx.setVariable(name, args[i])` with
no count check — a missing argument is `undefined`. -/
def bindParamsOpt (st : Store) (i : Nat) (ps : List String) (args : List Value) (k : Nat) : Store :=
  match ps with
  | [] => st
  | pn :: rest =>
    bindParamsOpt (st.setVar i pn (args.getD k .undefV)) i rest args (k+1)

/-! ## 5. The execution pass

A fuel-indexed interpreter.  Each function's `fuel+1` case is the body
of the corresponding `execute` method; every recursive call consumes
one unit of fuel, and `none` means the fuel ran out (or an unmodelled
host behaviour was reached) — never a program outcome. -/

mutual

/-- `ASTNode.execute` for the embedded node set, translated class by
class from the source. -/
def exec : Nat → Node → Nat → Store → Option (Store × Exc)
  | 0, _, _, _ => none
  | fuel+1, n, ctx, st =>
    match n with
    | .lit v => some (st, .ok v)
    | .varRef name =>
      match st.getVar ctx name with
      | none => none
      | some none => some (st, .error (.err ("Undefined variable: " ++ name)))
      | some (some v) => some (st, .ok v)
    | .varDecl vt name e =>
      if vt = "function" then
        match e with
        | .fnLit _ ps body _ _ pf =>
          let p := st.allocClos (.fnlit ps body pf) ctx
          some ((p.1).setVar ctx name p.2, .ok p.2)
        | .arrowFn ps body =>
          let p := st.allocClos (.arrow ps body) ctx
          some ((p.1).setVar ctx name p.2, .ok p.2)
        | _ => some (st, .error (.err
            ("Variable '" ++ name ++ "' expected a function literal")))
      else
        match exec fuel e ctx st with
        | none => none
        | some (st1, .error s) => some (st1, .error s)
        | some (st1, .ok v) =>
          match typeCheckJS vt v with
          | none => some (st1, .error (.err ("Unsupported variable type: " ++ vt)))
          | some passed =>
            if passed then some (st1.setVar ctx name v, .ok v)
            else some (st1, .error (.err
              ("Variable '" ++ name ++ "' expected " ++ vt ++ ", got " ++ gotStr v)))
    | .assign name e =>
      match exec fuel e ctx st with
      | none => none
      | some (st1, .error s) => some (st1, .error s)
      | some (st1, .ok v) => some (st1.setVar ctx name v, .ok v)
    | .retN e =>
      match exec fuel e ctx st with
      | none => none
      | some (st1, .error s) => some (st1, .error s)
      | some (st1, .ok v) => some (st1, .error (.ret v))
    | .brkN => some (st, .error .brk)
    | .contN => some (st, .error .cont)
    | .errN m =>
      match exec fuel m ctx st with
      | none => none
      | some (st1, .error s) => some (st1, .error s)
      | some (st1, .ok v) =>
        match toStringJS v with
        | none => none
        | some s => some (st1, .error (.err s))
    | .fnLit _ _ _ _ _ _ =>
      some (st, .error (.err
        "Function literal must be transformed into a callable via toFunction()."))
    | .arrowFn _ _ =>
      some (st, .error (.err
        "Arrow function must be transformed into a callable via toFunction()."))
    | .signalN s =>
      if s = "break" then some (st.setBreak ctx, .ok .undefV)
      else if s = "continue" then some (st.setContinue ctx, .ok .undefV)
      else some (st, .ok .undefV)
    | .fnCall fname args =>
      match st.getVar ctx fname with
      | none => none
      | some none => some (st, .error (.err ("Undefined variable: " ++ fname)))
      | some (some fv) =>
        match fv with
        | .closure cid =>
          match execArgs fuel args ctx st with
          | none => none
          | some (st1, .error s) => some (st1, .error s)
          | some (st1, .ok vs) => applyClos fuel cid vs st1
        | .builtin b =>
          match execArgs fuel args ctx st with
          | none => none
          | some (st1, .error s) => some (st1, .error s)
          | some (st1, .ok vs) => applyBuiltin b vs st1
        | _ => some (st, .error (.err ("'" ++ fname ++ "' is not callable")))
    | .block stmts =>
      let p := st.pushFrame (some ctx)
      match execSeq fuel stmts p.2 p.1 .undefV with
      | none => none
      | some (st2, v, none) => some (st2, .ok v)
      | some (st2, _, some s) => some (st2, .error s)
    | .ifN c tb eb =>
      match exec fuel c ctx st with
      | none => none
      | some (st1, .error s) => some (st1, .error s)
      | some (st1, .ok cv) =>
        match cv with
        | .bool b =>
          let p := st1.pushFrame (some ctx)
          match execSeq fuel (if b then tb else eb.getD []) p.2 p.1 .undefV with
          | none => none
          | some (st3, v, none) => some (st3, .ok v)
          | some (st3, _, some s) => some (st3, .error s)
        | _ => some (st1, .error (.err "Condition must be boolean"))
    | .whileN c body => execWhile fuel c body ctx st .undefV
    | .forN ini c upd body =>
      match exec fuel ini ctx st with
      | none => none
      | some (st1, .error s) => some (st1, .error s)
      | some (st1, .ok _) => execFor fuel c upd body ctx st1 .undefV
    | .doWhileN body c => execDoWhile fuel body c ctx st .undefV
    | .tryCatchN tb cv cb =>
      let p := st.pushFrame (some ctx)
      match execSeq fuel tb p.2 p.1 .undefV with
      | none => none
      | some (st2, v, none) => some (st2, .ok v)
      | some (st2, _, some (.err m)) =>
        let q := st2.pushFrame (some ctx)
        match execSeq fuel cb q.2 ((q.1).setVar q.2 cv (.exn m)) .undefV with
        | none => none
        | some (st5, w, none) => some (st5, .ok w)
        | some (st5, _, some s) => some (st5, .error s)
      | some (st2, _, some s) => some (st2, .error s)
termination_by structural fuel _ _ _ => fuel

/-- A statement sequence (`for (const stmt of ...) result = stmt.execute(...)`):
threads the running `result` value; a thrown signal aborts the
remaining statements, keeping the last completed statement's value. -/
def execSeq : Nat → List Node → Nat → Store → Value → Option (Store × Value × Option Signal)
  | 0, _, _, _, _ => none
  | _+1, [], _, st, acc => some (st, acc, none)
  | fuel+1, n :: rest, ctx, st, acc =>
    match exec fuel n ctx st with
    | none => none
    | some (st1, .ok v) => execSeq fuel rest ctx st1 v
    | some (st1, .error s) => some (st1, acc, some s)
termination_by structural fuel _ _ _ _ => fuel

/-- `FunctionCallNode`'s argument evaluation: a `FunctionLiteralNode`
argument is converted to a closure inline; every other argument
(arrow functions included) is executed as an expression. -/
def execArgs : Nat → List Node → Nat → Store → Option (Store × Except Signal (List Value))
  | 0, _, _, _ => none
  | _+1, [], _, st => some (st, .ok [])
  | fuel+1, a :: rest, ctx, st =>
    match a with
    | .fnLit _ ps body _ _ pf =>
      let p := st.allocClos (.fnlit ps body pf) ctx
      match execArgs fuel rest ctx p.1 with
      | none => none
      | some (st2, .error s) => some (st2, .error s)
      | some (st2, .ok vs) => some (st2, .ok (p.2 :: vs))
    | _ =>
      match exec fuel a ctx st with
      | none => none
      | some (st1, .error s) => some (st1, .error s)
      | some (st1, .ok v) =>
        match execArgs fuel rest ctx st1 with
        | none => none
        | some (st2, .error s) => some (st2, .error s)
        | some (st2, .ok vs) => some (st2, .ok (v :: vs))
termination_by structural fuel _ _ _ => fuel

/-- The `while (true)` loop of `WhileNode.execute`.  Note two details
taken verbatim from the source: the freshly created `loopCtx` is *not*
the context the body statements run in (they run in `ctx`), and the
`loopCtx.breakSignal` check runs only after a normally completed
iteration. -/
def execWhile : Nat → Node → List Node → Nat → Store → Value → Option (Store × Exc)
  | 0, _, _, _, _, _ => none
  | fuel+1, c, body, ctx, st, acc =>
    match exec fuel c ctx st with
    | none => none
    | some (st1, .error s) => some (st1, .error s)
    | some (st1, .ok cv) =>
      match cv with
      | .bool b =>
        if b then
          let p := st1.pushFrame (some ctx)
          match execSeq fuel body ctx p.1 acc with
          | none => none
          | some (st3, r, none) =>
            if st3.frameBreak p.2 then some (st3, .ok r)
            else execWhile fuel c body ctx st3 r
          | some (st3, r, some .cont) => execWhile fuel c body ctx st3 r
          | some (st3, r, some .brk) => some (st3, .ok r)
          | some (st3, r, some s) => some (st3, .error s)
        else some (st1, .ok acc)
      | _ => some (st1, .error (.err "Condition must be boolean"))
termination_by structural fuel _ _ _ _ _ => fuel

/-- The loop of `ForNode.execute`: condition checked in `ctx`, body in a
fresh child, update in `ctx` inside the `try` (so a `Continue` from the
body runs the update in the `catch` before re-testing; a signal thrown
by that update propagates out of the loop). -/
def execFor : Nat → Node → Node → List Node → Nat → Store → Value → Option (Store × Exc)
  | 0, _, _, _, _, _, _ => none
  | fuel+1, c, upd, body, ctx, st, acc =>
    match exec fuel c ctx st with
    | none => none
    | some (st1, .error s) => some (st1, .error s)
    | some (st1, .ok cv) =>
      match cv with
      | .bool b =>
        if b then
          let p := st1.pushFrame (some ctx)
          match execSeq fuel body p.2 p.1 acc with
          | none => none
          | some (st3, r, none) =>
            match exec fuel upd ctx st3 with
            | none => none
            | some (st4, .ok _) => execFor fuel c upd body ctx st4 r
            | some (st4, .error .cont) =>
              match exec fuel upd ctx st4 with
              | none => none
              | some (st5, .ok _) => execFor fuel c upd body ctx st5 r
              | some (st5, .error s) => some (st5, .error s)
            | some (st4, .error .brk) => some (st4, .ok r)
            | some (st4, .error s) => some (st4, .error s)
          | some (st3, r, some .cont) =>
            match exec fuel upd ctx st3 with
            | none => none
            | some (st4, .ok _) => execFor fuel c upd body ctx st4 r
            | some (st4, .error s) => some (st4, .error s)
          | some (st3, r, some .brk) => some (st3, .ok r)
          | some (st3, r, some s) => some (st3, .error s)
        else some (st1, .ok acc)
      | _ => some (st1, .error (.err "Condition must be boolean"))
termination_by structural fuel _ _ _ _ _ _ => fuel

/-- The `do ... while` loop of `DoWhileNode.execute`: body in a fresh
child context each iteration; a normally completed iteration checks the
child's `breakSignal` flag; the repeat condition is evaluated with *no*
boolean check — plain JS truthiness decides whether to loop. -/
def execDoWhile : Nat → List Node → Node → Nat → Store → Value → Option (Store × Exc)
  | 0, _, _, _, _, _ => none
  | fuel+1, body, c, ctx, st, acc =>
    let p := st.pushFrame (some ctx)
    match execSeq fuel body p.2 p.1 acc with
    | none => none
    | some (st2, r, none) =>
      if st2.frameBreak p.2 then some (st2, .ok r)
      else
        match exec fuel c ctx st2 with
        | none => none
        | some (st3, .error s) => some (st3, .error s)
        | some (st3, .ok cv) =>
          if truthy cv then execDoWhile fuel body c ctx st3 r
          else some (st3, .ok r)
    | some (st2, r, some .cont) =>
      match exec fuel c ctx st2 with
      | none => none
      | some (st3, .error s) => some (st3, .error s)
      | some (st3, .ok cv) =>
        if truthy cv then execDoWhile fuel body c ctx st3 r
        else some (st3, .ok r)
    | some (st2, r, some .brk) => some (st2, .ok r)
    | some (st2, r, some s) => some (st2, .error s)
termination_by structural fuel _ _ _ _ _ => fuel

/-- The function produced by `FunctionLiteralNode.toFunction` (before
the optional `memoize` wrapper): create a fresh child of the capturing
context, reject an argument-count mismatch, bind the parameters
positionally, run the body statements in order; a `ReturnSignal` is
swallowed and yields the call result, everything else propagates; with
no `ReturnSignal` the call returns `undefined`. -/
def runFnBody : Nat → List String → List Node → Nat → List Value → Store → Option (Store × Exc)
  | 0, _, _, _, _, _ => none
  | fuel+1, ps, body, cctx, args, st =>
    let p := st.pushFrame (some cctx)
    if args.length = ps.length then
      match execSeq fuel body p.2 (bindParams p.1 p.2 ps args) .undefV with
      | none => none
      | some (st3, _, none) => some (st3, .ok .undefV)
      | some (st3, _, some (.ret v)) => some (st3, .ok v)
      | some (st3, _, some s) => some (st3, .error s)
    else some (p.1, .error (.err "Argument count mismatch."))
termination_by structural fuel _ _ _ _ _ => fuel

/-- Invoking a closure value: arrow closures bind their parameters (a
missing argument binds `undefined`) and evaluate their single body
expression with no signal handling; function-literal closures run
`runFnBody`, wrapped — when `pure` was set — in `memoize`'s cache: a
hit returns the cached value untouched, a miss runs the function and
caches a normal result (a thrown signal is not cached). -/
def applyClos : Nat → Nat → List Value → Store → Option (Store × Exc)
  | 0, _, _, _ => none
  | fuel+1, cid, args, st =>
    match st.clos[cid]? with
    | none => none
    | some c =>
      match c.kind with
      | .arrow ps body =>
        let p := st.pushFrame (some c.ctx)
        exec fuel body p.2 (bindParamsOpt p.1 p.2 ps args 0)
      | .fnlit ps body pf =>
        if pf then
          match assocFind (serializeArgs args) c.cache with
          | some v => some (st, .ok v)
          | none =>
            match runFnBody fuel ps body c.ctx args st with
            | none => none
            | some (st1, .ok v) =>
              some (st1.cacheInsert cid (serializeArgs args) v, .ok v)
            | some (st1, .error s) => some (st1, .error s)
        else runFnBody fuel ps body c.ctx args st
termination_by structural fuel _ _ _ => fuel

end


/-- The root execution context of `Interpreter.execute` /`App`. -/
def Store.initial : Store := ⟨[newFrame none], [], []⟩

/-- `Interpreter.execute`: run the top-level nodes in order against a
fresh root context; a thrown signal or error aborts the remainder. -/
def runProgram (fuel : Nat) (nodes : List Node) :
    Option (Store × Value × Option Signal) :=
  execSeq fuel nodes 0 Store.initial .undefV

/-! ## 6. The inference pass

`TypeEnvironment` is a chain of frames in which every write targets the
frame the operation was handed (`setType` writes `this.types`), so the
chain is modelled as a stack of frames threaded through the pass: the
head is the current frame, child scopes push a frame and drop it when
the construct ends. -/

/-- The chain of type frames; head = current scope. -/
abbrev TEnv := List (List (String × Ty))

/-- `Record<string, Type>` assignment for the inference pass. -/
def setTyEntry (k : String) (t : Ty) : List (String × Ty) → List (String × Ty)
  | [] => [(k, t)]
  | (k', t') :: rest =>
      if k' = k then (k, t) :: rest else (k', t') :: setTyEntry k t rest

/-- `TypeEnvironment.getType`: walk from the current frame to the root,
failing with the source's unbound-name error. -/
def getTypeE : TEnv → String → Except String Ty
  | [], name => .error ("Undefined variable (type): " ++ name)
  | f :: rest, name =>
    match lookupTy name f with
    | some t => .ok t
    | none => getTypeE rest name

/-- `TypeEnvironment.setType`: always writes the current frame. -/
def setTypeE : TEnv → String → Ty → TEnv
  | [], n, t => [[(n, t)]]
  | f :: rest, n, t => setTyEntry n t f :: rest

mutual

/-- `typeToString` from the source (diagnostics rendering). -/
def typeToString : Ty → String
  | .number => "number"
  | .string => "string"
  | .boolean => "boolean"
  | .null => "null"
  | .undefined => "undefined"
  | .bigint => "bigint"
  | .symbol => "symbol"
  | .void => "void"
  | .any => "any"
  | .func ps r =>
      "(" ++ String.intercalate ", " (typeToStringList ps) ++ ") => " ++ typeToString r
  | .arr e => "Array<" ++ typeToString e ++ ">"
  | .obj ps => "\x7b " ++ String.intercalate ", " (typeToStringProps ps) ++ " \x7d"
termination_by structural t => t

/-- `paramTypes.map(typeToString)`. -/
def typeToStringList : List Ty → List String
  | [] => []
  | t :: ts => typeToString t :: typeToStringList ts
termination_by structural ts => ts

/-- `Object.entries(properties).map(([k, t]) => k + ": " + ...)`. -/
def typeToStringProps : List (String × Ty) → List String
  | [] => []
  | (k, t) :: rest => (k ++ ": " ++ typeToString t) :: typeToStringProps rest
termination_by structural ps => ps

end

mutual

/-- `JSON.stringify` of a `Type` value, as used by the assignment
mismatch message (string tags render quoted; composite types render
their fields in the declaration order of the source's object literals). -/
def jsonStringifyTy : Ty → String
  | .number => "\"number\""
  | .string => "\"string\""
  | .boolean => "\"boolean\""
  | .null => "\"null\""
  | .undefined => "\"undefined\""
  | .bigint => "\"bigint\""
  | .symbol => "\"symbol\""
  | .void => "\"void\""
  | .any => "\"any\""
  | .func ps r =>
      "\x7b\"kind\":\"function\",\"paramTypes\":[" ++
        String.intercalate "," (jsonStringifyTyList ps) ++
        "],\"returnType\":" ++ jsonStringifyTy r ++ "\x7d"
  | .arr e =>
      "\x7b\"kind\":\"array\",\"elementType\":" ++ jsonStringifyTy e ++ "\x7d"
  | .obj ps =>
      "\x7b\"kind\":\"object\",\"properties\":\x7b" ++
        String.intercalate "," (jsonStringifyTyProps ps) ++ "\x7d\x7d"
termination_by structural t => t

/-- Parameter-type list rendering for `jsonStringifyTy`. -/
def jsonStringifyTyList : List Ty → List String
  | [] => []
  | t :: ts => jsonStringifyTy t :: jsonStringifyTyList ts
termination_by structural ts => ts

/-- Property rendering for `jsonStringifyTy`. -/
def jsonStringifyTyProps : List (String × Ty) → List String
  | [] => []
  | (k, t) :: rest => ("\"" ++ k ++ "\":" ++ jsonStringifyTy t) :: jsonStringifyTyProps rest
termination_by structural ps => ps

end

/-- `LiteralNode.inferType`: dispatch on the runtime kind of the stored
value (`typeof` chain ending in `"any"`; callables and `Error` objects
fall through to `"any"`). -/
def litType : Value → Ty
  | .null => .null
  | .num _ => .number
  | .str _ => .string
  | .bool _ => .boolean
  | .undefV => .undefined
  | .closure _ => .any
  | .builtin _ => .any
  | .exn _ => .any

/-- `condType !== "boolean"` (negated): an object type is never
reference-equal to the `"boolean"` tag. -/
def isBooleanTy : Ty → Bool
  | .boolean => true
  | _ => false

/-- The `typeMap` of `VariableDeclarationNode.inferType`, verbatim from
the source.  Note the keys: they are the two-character strings `"n_"`,
`"s_"`, ..., while the node's `varType` field ranges over the
`varTypes` strings `"number"`, `"string"`, ... — no `varTypes` value
ever hits a key of this map. -/
def declTypeMap (vt : String) (actualType : Ty) : Option Ty :=
  if vt = "n_" then some .number
  else if vt = "s_" then some .string
  else if vt = "b_" then some .boolean
  else if vt = "u_" then some .undefined
  else if vt = "l_" then some .null
  else if vt = "x_" then some .bigint
  else if vt = "a_" then some actualType
  else if vt = "o_" then some actualType
  else if vt = "f_" then some actualType
  else none

/-- `declaredParamTypes.forEach((pt, i) => localEnv.setType(params[i], pt))`
(a surplus declared type with no matching parameter is dropped; the
source would key it under the string `"undefined"`, which no claim
exercises). -/
def bindDeclTypes : List String → List Ty → TEnv → TEnv
  | _, [], env => env
  | [], _ :: _, env => env
  | p :: ps, t :: ts, env => bindDeclTypes ps ts (setTypeE env p t)

/-- Arrow parameters: all bound to `"any"`. -/
def bindAllAny : List String → TEnv → TEnv
  | [], env => env
  | p :: ps, env => bindAllAny ps (setTypeE env p .any)

mutual

/-- `ASTNode.inferType` for the embedded node set, translated class by
class from the source; `.error` carries the thrown message. -/
def inferType : Node → TEnv → Except String (Ty × TEnv)
  | .lit v, env => .ok (litType v, env)
  | .varRef n, env =>
    match getTypeE env n with
    | .error m => .error m
    | .ok t => .ok (t, env)
  | .varDecl vt name e, env =>
    match inferType e env with
    | .error m => .error m
    | .ok (actualType, env1) =>
      match declTypeMap vt actualType with
      | none => .error ("Unsupported variable type: " ++ vt)
      | some expected =>
        if compareTypes actualType expected then
          .ok (actualType, setTypeE env1 name actualType)
        else
          .error ("Type mismatch in declaration of '" ++ name ++ "': expected "
            ++ typeToString expected ++ ", got " ++ typeToString actualType)
  | .assign name e, env =>
    match getTypeE env name with
    | .error m => .error m
    | .ok currentType =>
      match inferType e env with
      | .error m => .error m
      | .ok (newType, env1) =>
        if compareTypes currentType newType then .ok (currentType, env1)
        else
          .error ("Type mismatch in assignment to '" ++ name ++ "': expected "
            ++ jsonStringifyTy currentType ++ ", got " ++ jsonStringifyTy newType)
  | .retN e, env => inferType e env
  | .brkN, env => .ok (.void, env)
  | .contN, env => .ok (.void, env)
  | .errN _, env => .ok (.void, env)
  | .signalN _, env => .ok (.void, env)
  | .fnLit name params body dpt drt _, env =>
    match inferSeq body (bindDeclTypes params (dpt.getD []) ([] :: env)) .void with
    | .error m => .error m
    | .ok (bodyType, env2) =>
      match drt with
      | some rt =>
        if compareTypes bodyType rt then
          .ok (.func (dpt.getD []) rt,
            match name with
            | some nm => setTypeE env2.tail nm (.func (dpt.getD []) rt)
            | none => env2.tail)
        else
          .error ("Return type mismatch: expected " ++ typeToString rt
            ++ ", got " ++ typeToString bodyType)
      | none =>
        .ok (.func (dpt.getD []) bodyType,
          match name with
          | some nm => setTypeE env2.tail nm (.func (dpt.getD []) bodyType)
          | none => env2.tail)
  | .arrowFn ps bodyE, env =>
    match inferType bodyE (bindAllAny ps ([] :: env)) with
    | .error m => .error m
    | .ok (returnType, env2) =>
      .ok (.func (ps.map fun _ => .any) returnType, env2.tail)
  | .fnCall fname args, env =>
    match getTypeE env fname with
    | .error m => .error m
    | .ok fnType =>
      match fnType with
      | .func pts rt =>
        if pts.length = args.length then
          match inferArgs args pts 0 env with
          | .error m => .error m
          | .ok env1 => .ok (rt, env1)
        else .error "Argument count mismatch in call"
      | _ => .error ("'" ++ fname ++ "' is not a function")
  | .block stmts, env =>
    match inferSeq stmts ([] :: env) .void with
    | .error m => .error m
    | .ok (t, env2) => .ok (t, env2.tail)
  | .ifN c tb eb, env =>
    match inferType c env with
    | .error m => .error m
    | .ok (condType, env1) =>
      if isBooleanTy condType then
        match inferSeq tb ([] :: env1) .void with
        | .error m => .error m
        | .ok (_, env2) =>
          match eb with
          | some els =>
            match inferSeq els ([] :: env2.tail) .void with
            | .error m => .error m
            | .ok (_, env3) => .ok (.void, env3.tail)
          | none => .ok (.void, env2.tail)
      else .error "Condition must be boolean"
  | .whileN c body, env =>
    match inferType c env with
    | .error m => .error m
    | .ok (condType, env1) =>
      if isBooleanTy condType then
        match inferSeq body ([] :: env1) .void with
        | .error m => .error m
        | .ok (_, env2) => .ok (.void, env2.tail)
      else .error "Condition must be boolean"
  | .forN ini c upd body, env =>
    match inferType ini env with
    | .error m => .error m
    | .ok (_, env1) =>
      match inferType c env1 with
      | .error m => .error m
      | .ok (condType, env2) =>
        if isBooleanTy condType then
          match inferType upd env2 with
          | .error m => .error m
          | .ok (_, env3) =>
            match inferSeq body ([] :: env3) .void with
            | .error m => .error m
            | .ok (_, env4) => .ok (.void, env4.tail)
        else .error "Condition must be boolean"
  | .doWhileN body c, env =>
    match inferSeq body ([] :: env) .void with
    | .error m => .error m
    | .ok (_, env1) =>
      match inferType c env1.tail with
      | .error m => .error m
      | .ok (condType, env2) =>
        if isBooleanTy condType then .ok (.void, env2)
        else .error "Condition must be boolean"
  | .tryCatchN tb cv cb, env =>
    match inferSeq tb ([] :: env) .void with
    | .error m => .error m
    | .ok (_, env1) =>
      match inferSeq cb (setTypeE ([] :: env1.tail) cv .any) .void with
      | .error m => .error m
      | .ok (_, env2) => .ok (.void, env2.tail)
termination_by structural n _ => n

/-- A statement sequence in the inference pass: the running type starts
at `"void"` and becomes the last statement's inferred type. -/
def inferSeq : List Node → TEnv → Ty → Except String (Ty × TEnv)
  | [], env, acc => .ok (acc, env)
  | n :: rest, env, _ =>
    match inferType n env with
    | .error m => .error m
    | .ok (t, env1) => inferSeq rest env1 t
termination_by structural ns _ _ => ns

/-- `FunctionCallNode.inferType`'s argument loop: each argument must
structurally match the corresponding declared parameter type. -/
def inferArgs : List Node → List Ty → Nat → TEnv → Except String TEnv
  | [], _, _, env => .ok env
  | a :: rest, pts, i, env =>
    match inferType a env with
    | .error m => .error m
    | .ok (argTy, env1) =>
      match pts with
      | t :: ts =>
        if compareTypes argTy t then inferArgs rest ts (i+1) env1
        else
          .error ("Arg type mismatch at position " ++ toString i ++ ": expected "
            ++ typeToString t ++ " got " ++ typeToString argTy)
      | [] => .ok env1
termination_by structural ns _ _ _ => ns

end

/-! ## 7. Store-effect invariant

Executing any node can only (a) append fresh frames and closures,
(b) rewrite the variable record and flags of the current context's
frame, and (c) rewrite closure caches and the output trace.  The
variable records of all other pre-existing frames, and the code and
captured context of all pre-existing closures, are untouched.  This is
the key frame-effect fact behind the scoping claims. -/

/-- `st'` preserves, relative to `st`: the variable record of every
pre-existing frame whose index is not `allow`ed to change, and the code
and captured context of every pre-existing closure. -/
structure Preserves (st st' : Store) (allow : Nat → Prop) : Prop where
  framesLen : st.frames.length ≤ st'.frames.length
  varsEq : ∀ j, j < st.frames.length → ¬ allow j →
    (st'.frames[j]?).map Frame.vars = (st.frames[j]?).map Frame.vars
  closLen : st.clos.length ≤ st'.clos.length
  closEq : ∀ k, k < st.clos.length →
    (st'.clos[k]?).map (fun c => (c.kind, c.ctx))
      = (st.clos[k]?).map (fun c => (c.kind, c.ctx))

theorem Preserves.refl (st : Store) (allow : Nat → Prop) : Preserves st st allow :=
  ⟨le_rfl, fun _ _ _ => rfl, le_rfl, fun _ _ => rfl⟩

theorem Preserves.trans {st st1 st2 : Store} {allow : Nat → Prop}
    (h1 : Preserves st st1 allow) (h2 : Preserves st1 st2 allow) :
    Preserves st st2 allow := by
  refine ⟨h1.framesLen.trans h2.framesLen, fun j hj ha => ?_,
    h1.closLen.trans h2.closLen, fun k hk => ?_⟩
  · exact (h2.varsEq j (lt_of_lt_of_le hj h1.framesLen) ha).trans (h1.varsEq j hj ha)
  · exact (h2.closEq k (lt_of_lt_of_le hk h1.closLen)).trans (h1.closEq k hk)

theorem Preserves.mono {st st' : Store} {A B : Nat → Prop}
    (hab : ∀ j, A j → B j) (h : Preserves st st' A) : Preserves st st' B :=
  ⟨h.framesLen, fun j hj hb => h.varsEq j hj (fun ha => hb (hab j ha)),
    h.closLen, h.closEq⟩

/-- A phase that may only touch a frame that did not exist in `st`
touches no pre-existing frame at all. -/
theorem Preserves.of_ge {st st' : Store} {i : Nat}
    (hi : st.frames.length ≤ i) (h : Preserves st st' (· = i)) :
    Preserves st st' (fun _ => False) :=
  ⟨h.framesLen, fun j hj _ => h.varsEq j hj (by omega), h.closLen, h.closEq⟩

theorem Preserves.of_false {st st' : Store} {A : Nat → Prop}
    (h : Preserves st st' (fun _ => False)) : Preserves st st' A :=
  h.mono (fun _ hf => hf.elim)

theorem listModify_length {α : Type} (l : List α) (i : Nat) (f : α → α) :
    (listModify l i f).length = l.length := by
  induction l generalizing i with
  | nil => rfl
  | cons a rest ih =>
    cases i with
    | zero => rfl
    | succ n => simp [listModify, ih]

theorem listModify_getElem?_ne {α : Type} (l : List α) (i j : Nat) (f : α → α)
    (h : j ≠ i) : (listModify l i f)[j]? = l[j]? := by
  induction l generalizing i j with
  | nil => rfl
  | cons a rest ih =>
    cases i with
    | zero =>
      cases j with
      | zero => omega
      | succ m => simp [listModify]
    | succ n =>
      cases j with
      | zero => simp [listModify]
      | succ m => simpa [listModify] using ih n m (by omega)

theorem listModify_getElem?_self {α : Type} (l : List α) (i : Nat) (f : α → α) :
    (listModify l i f)[i]? = (l[i]?).map f := by
  induction l generalizing i with
  | nil => rfl
  | cons a rest ih =>
    cases i with
    | zero => simp [listModify]
    | succ n => simpa [listModify] using ih n

theorem append_getElem?_lt {α : Type} (l l' : List α) (j : Nat) (h : j < l.length) :
    (l ++ l')[j]? = l[j]? := by
  rw [List.getElem?_append, if_pos h]

theorem Preserves.pushFrame (st : Store) (p : Option Nat) (A : Nat → Prop) :
    Preserves st (st.pushFrame p).1 A := by
  refine ⟨by simp [Store.pushFrame], fun j hj _ => ?_, le_rfl, fun k hk => rfl⟩
  simp only [Store.pushFrame]
  rw [append_getElem?_lt _ _ _ hj]

theorem Preserves.setVar (st : Store) (i : Nat) (n : String) (v : Value) :
    Preserves st (st.setVar i n v) (· = i) := by
  refine ⟨by simp [Store.setVar, listModify_length], fun j hj ha => ?_,
    le_rfl, fun k hk => rfl⟩
  simp only [Store.setVar]
  rw [listModify_getElem?_ne _ _ _ _ ha]

theorem Preserves.setBreak (st : Store) (i : Nat) :
    Preserves st (st.setBreak i) (fun _ => False) := by
  refine ⟨by simp [Store.setBreak, listModify_length], fun j hj _ => ?_,
    le_rfl, fun k hk => rfl⟩
  simp only [Store.setBreak]
  by_cases hji : j = i
  · subst hji
    rw [listModify_getElem?_self]
    cases st.frames[j]? <;> rfl
  · rw [listModify_getElem?_ne _ _ _ _ hji]

theorem Preserves.setContinue (st : Store) (i : Nat) :
    Preserves st (st.setContinue i) (fun _ => False) := by
  refine ⟨by simp [Store.setContinue, listModify_length], fun j hj _ => ?_,
    le_rfl, fun k hk => rfl⟩
  simp only [Store.setContinue]
  by_cases hji : j = i
  · subst hji
    rw [listModify_getElem?_self]
    cases st.frames[j]? <;> rfl
  · rw [listModify_getElem?_ne _ _ _ _ hji]

theorem Preserves.allocClos (st : Store) (k : ClosKind) (cctx : Nat) :
    Preserves st (st.allocClos k cctx).1 (fun _ => False) := by
  refine ⟨le_rfl, fun j hj _ => rfl, by simp [Store.allocClos], fun c hc => ?_⟩
  simp only [Store.allocClos]
  rw [append_getElem?_lt _ _ _ hc]

theorem Preserves.cacheInsert (st : Store) (cid : Nat) (key : String) (v : Value) :
    Preserves st (st.cacheInsert cid key v) (fun _ => False) := by
  refine ⟨le_rfl, fun j hj _ => rfl,
    by simp [Store.cacheInsert, listModify_length], fun k hk => ?_⟩
  simp only [Store.cacheInsert]
  by_cases hki : k = cid
  · subst hki
    rw [listModify_getElem?_self]
    cases st.clos[k]? <;> rfl
  · rw [listModify_getElem?_ne _ _ _ _ hki]

theorem Preserves.addOutput (st : Store) (args : List Value) :
    Preserves st (st.addOutput args) (fun _ => False) :=
  ⟨le_rfl, fun _ _ _ => rfl, le_rfl, fun _ _ => rfl⟩

theorem Preserves.applyBuiltin {b : BName} {args : List Value} {st st' : Store}
    {r : Exc} (h : applyBuiltin b args st = some (st', r)) :
    Preserves st st' (fun _ => False) := by
  cases b <;> simp only [Intrear.applyBuiltin] at h <;> try split at h
  all_goals first
    | (cases h; exact Preserves.addOutput ..)
    | (cases h; exact Preserves.refl ..)
    | exact absurd h (by simp)
    | skip
  all_goals cases h
  all_goals exact Preserves.refl ..

/-- Variable lookup inside an untouched frame is unchanged. -/
theorem Preserves.lookupVar_eq {st st' : Store} {A : Nat → Prop}
    (h : Preserves st st' A) {j : Nat} (hj : j < st.frames.length) (ha : ¬ A j)
    (n : String) : st'.lookupVar j n = st.lookupVar j n := by
  have hv := h.varsEq j hj ha
  simp only [Store.lookupVar]
  cases he : st.frames[j]? with
  | none =>
    rw [he] at hv
    cases he' : st'.frames[j]? with
    | none => rfl
    | some f' => rw [he'] at hv; simp at hv
  | some f =>
    rw [he] at hv
    cases he' : st'.frames[j]? with
    | none => rw [he'] at hv; simp at hv
    | some f' =>
      rw [he'] at hv
      simp only [Option.map_some'] at hv
      have hvv : f'.vars = f.vars := by injection hv
      simp [hvv]

set_option maxHeartbeats 2000000

theorem Preserves.trans_fresh {st st1 st2 : Store} {A : Nat → Prop} {i : Nat}
    (h1 : Preserves st st1 A) (hi : st.frames.length ≤ i)
    (h2 : Preserves st1 st2 (· = i)) : Preserves st st2 A :=
  ⟨h1.framesLen.trans h2.framesLen,
   fun j hj ha =>
     (h2.varsEq j (lt_of_lt_of_le hj h1.framesLen) (by omega)).trans (h1.varsEq j hj ha),
   h1.closLen.trans h2.closLen,
   fun k hk => (h2.closEq k (lt_of_lt_of_le hk h1.closLen)).trans (h1.closEq k hk)⟩

theorem Preserves.bindParams (i : Nat) :
    ∀ (ps : List String) (vs : List Value) (st : Store),
      Preserves st (bindParams st i ps vs) (· = i) := by
  intro ps
  induction ps with
  | nil => intro vs st; exact Preserves.refl ..
  | cons pn ps ih =>
    intro vs st
    cases vs with
    | nil => exact Preserves.refl ..
    | cons v vs => exact (Preserves.setVar st i pn v).trans (ih vs _)

theorem Preserves.bindParamsOpt (i : Nat) (args : List Value) :
    ∀ (ps : List String) (k : Nat) (st : Store),
      Preserves st (bindParamsOpt st i ps args k) (· = i) := by
  intro ps
  induction ps with
  | nil => intro k st; exact Preserves.refl ..
  | cons pn ps ih =>
    intro k st
    exact (Preserves.setVar st i pn (args.getD k .undefV)).trans (ih (k+1) _)

/-- The store-effect invariant, proved for all eight interpreter
functions simultaneously by induction on the fuel. -/
theorem execPreservesAll : ∀ fuel : Nat,
    (∀ n ctx st st' r, exec fuel n ctx st = some (st', r) →
      Preserves st st' (· = ctx)) ∧
    (∀ ns ctx st acc st' v s, execSeq fuel ns ctx st acc = some (st', v, s) →
      Preserves st st' (· = ctx)) ∧
    (∀ args ctx st st' r, execArgs fuel args ctx st = some (st', r) →
      Preserves st st' (· = ctx)) ∧
    (∀ c body ctx st acc st' r, execWhile fuel c body ctx st acc = some (st', r) →
      Preserves st st' (· = ctx)) ∧
    (∀ c upd body ctx st acc st' r, execFor fuel c upd body ctx st acc = some (st', r) →
      Preserves st st' (· = ctx)) ∧
    (∀ body c ctx st acc st' r, execDoWhile fuel body c ctx st acc = some (st', r) →
      Preserves st st' (· = ctx)) ∧
    (∀ ps body cctx args st st' r, runFnBody fuel ps body cctx args st = some (st', r) →
      Preserves st st' (fun _ => False)) ∧
    (∀ cid args st st' r, applyClos fuel cid args st = some (st', r) →
      Preserves st st' (fun _ => False)) := by
  intro fuel
  induction fuel with
  | zero =>
    refine ⟨?_, ?_, ?_, ?_, ?_, ?_, ?_, ?_⟩ <;>
      (intros; rename_i h;
       simp only [exec, execSeq, execArgs, execWhile, execFor, execDoWhile,
         runFnBody, applyClos] at h; cases h)
  | succ fuel ih =>
    obtain ⟨ihExec, ihSeq, ihArgs, ihWhile, ihFor, ihDo, ihFn, ihApply⟩ := ih
    refine ⟨?_, ?_, ?_, ?_, ?_, ?_, ?_, ?_⟩
    · -- exec
      intro n ctx st st' r h
      cases n with
      | lit v => simp only [exec] at h; cases h; exact Preserves.refl ..
      | varRef name =>
        simp only [exec] at h
        split at h
        · cases h
        · cases h; exact Preserves.refl ..
        · cases h; exact Preserves.refl ..
      | varDecl vt name e =>
        simp only [exec] at h
        split at h
        · -- vt = "function"
          split at h
          · cases h
            exact ((Preserves.allocClos ..).of_false).trans (Preserves.setVar ..)
          · cases h
            exact ((Preserves.allocClos ..).of_false).trans (Preserves.setVar ..)
          · cases h; exact Preserves.refl ..
        · -- ordinary kinds
          split at h
          · cases h
          · rename_i st1 sg heq
            cases h; exact ihExec _ _ _ _ _ heq
          · rename_i st1 v heq
            split at h
            · cases h; exact ihExec _ _ _ _ _ heq
            · split at h
              · cases h
                exact (ihExec _ _ _ _ _ heq).trans (Preserves.setVar ..)
              · cases h; exact ihExec _ _ _ _ _ heq
      | assign name e =>
        simp only [exec] at h
        split at h
        · cases h
        · rename_i st1 sg heq
          cases h; exact ihExec _ _ _ _ _ heq
        · rename_i st1 v heq
          cases h
          exact (ihExec _ _ _ _ _ heq).trans (Preserves.setVar ..)
      | retN e =>
        simp only [exec] at h
        split at h
        · cases h
        · rename_i st1 sg heq
          cases h; exact ihExec _ _ _ _ _ heq
        · rename_i st1 v heq
          cases h; exact ihExec _ _ _ _ _ heq
      | brkN => simp only [exec] at h; cases h; exact Preserves.refl ..
      | contN => simp only [exec] at h; cases h; exact Preserves.refl ..
      | errN m =>
        simp only [exec] at h
        split at h
        · cases h
        · rename_i st1 sg heq
          cases h; exact ihExec _ _ _ _ _ heq
        · rename_i st1 v heq
          split at h
          · cases h
          · cases h; exact ihExec _ _ _ _ _ heq
      | fnLit nm ps body dpt drt pf =>
        simp only [exec] at h; cases h; exact Preserves.refl ..
      | arrowFn ps body =>
        simp only [exec] at h; cases h; exact Preserves.refl ..
      | signalN sg =>
        simp only [exec] at h
        split at h
        · cases h; exact (Preserves.setBreak ..).of_false
        · split at h
          · cases h; exact (Preserves.setContinue ..).of_false
          · cases h; exact Preserves.refl ..
      | fnCall fname args =>
        simp only [exec] at h
        split at h
        · cases h
        · cases h; exact Preserves.refl ..
        · split at h
          · -- closure
            split at h
            · cases h
            · rename_i st1 sg heq
              cases h; exact ihArgs _ _ _ _ _ heq
            · rename_i st1 vs heq
              exact (ihArgs _ _ _ _ _ heq).trans ((ihApply _ _ _ _ _ h).of_false)
          · -- builtin
            split at h
            · cases h
            · rename_i st1 sg heq
              cases h; exact ihArgs _ _ _ _ _ heq
            · rename_i st1 vs heq
              exact (ihArgs _ _ _ _ _ heq).trans ((Preserves.applyBuiltin h).of_false)
          · cases h; exact Preserves.refl ..
      | block stmts =>
        simp only [exec] at h
        split at h
        · cases h
        · rename_i st2 v heq
          cases h
          exact (Preserves.pushFrame st (some ctx) _).trans_fresh le_rfl
            (ihSeq _ _ _ _ _ _ _ heq)
        · rename_i st2 v sg heq
          cases h
          exact (Preserves.pushFrame st (some ctx) _).trans_fresh le_rfl
            (ihSeq _ _ _ _ _ _ _ heq)
      | ifN c tb eb =>
        simp only [exec] at h
        split at h
        · cases h
        · rename_i st1 sg heq
          cases h; exact ihExec _ _ _ _ _ heq
        · rename_i st1 cv heq
          split at h
          · -- boolean condition
            split at h
            · cases h
            · rename_i st3 v heq2
              cases h
              exact ((ihExec _ _ _ _ _ heq).trans
                (Preserves.pushFrame st1 (some ctx) _)).trans_fresh
                (ihExec _ _ _ _ _ heq).framesLen (ihSeq _ _ _ _ _ _ _ heq2)
            · rename_i st3 v sg heq2
              cases h
              exact ((ihExec _ _ _ _ _ heq).trans
                (Preserves.pushFrame st1 (some ctx) _)).trans_fresh
                (ihExec _ _ _ _ _ heq).framesLen (ihSeq _ _ _ _ _ _ _ heq2)
          · cases h; exact ihExec _ _ _ _ _ heq
      | whileN c body => exact ihWhile _ _ _ _ _ _ _ h
      | forN ini c upd body =>
        simp only [exec] at h
        split at h
        · cases h
        · rename_i st1 sg heq
          cases h; exact ihExec _ _ _ _ _ heq
        · rename_i st1 v heq
          exact (ihExec _ _ _ _ _ heq).trans (ihFor _ _ _ _ _ _ _ _ h)
      | doWhileN body c => exact ihDo _ _ _ _ _ _ _ h
      | tryCatchN tb cv cb =>
        simp only [exec] at h
        split at h
        · cases h
        · rename_i st2 v heq
          cases h
          exact (Preserves.pushFrame st (some ctx) _).trans_fresh le_rfl
            (ihSeq _ _ _ _ _ _ _ heq)
        · rename_i st2 v m heq
          have hpre : Preserves st st2 (· = ctx) :=
            (Preserves.pushFrame st (some ctx) _).trans_fresh le_rfl
              (ihSeq _ _ _ _ _ _ _ heq)
          split at h
          · cases h
          · rename_i st5 w heq2
            cases h
            exact (((hpre.trans (Preserves.pushFrame st2 (some ctx) _)).trans_fresh
              hpre.framesLen (Preserves.setVar ..)).trans_fresh
              hpre.framesLen (ihSeq _ _ _ _ _ _ _ heq2))
          · rename_i st5 w sg heq2
            cases h
            exact (((hpre.trans (Preserves.pushFrame st2 (some ctx) _)).trans_fresh
              hpre.framesLen (Preserves.setVar ..)).trans_fresh
              hpre.framesLen (ihSeq _ _ _ _ _ _ _ heq2))
        · rename_i st2 v sg hne heq
          cases h
          exact (Preserves.pushFrame st (some ctx) _).trans_fresh le_rfl
            (ihSeq _ _ _ _ _ _ _ heq)
    · -- execSeq
      intro ns ctx st acc st' v s h
      cases ns with
      | nil => simp only [execSeq] at h; cases h; exact Preserves.refl ..
      | cons n rest =>
        simp only [execSeq] at h
        split at h
        · cases h
        · rename_i st1 v1 heq
          exact (ihExec _ _ _ _ _ heq).trans (ihSeq _ _ _ _ _ _ _ h)
        · rename_i st1 sg heq
          cases h; exact ihExec _ _ _ _ _ heq
    · -- execArgs
      intro args ctx st st' r h
      cases args with
      | nil => simp only [execArgs] at h; cases h; exact Preserves.refl ..
      | cons a rest =>
        simp only [execArgs] at h
        split at h
        · -- function-literal argument
          split at h
          · cases h
          · rename_i st2 sg heq
            cases h
            exact ((Preserves.allocClos ..).of_false).trans (ihArgs _ _ _ _ _ heq)
          · rename_i st2 vs heq
            cases h
            exact ((Preserves.allocClos ..).of_false).trans (ihArgs _ _ _ _ _ heq)
        · split at h
          · cases h
          · rename_i st1 sg heq
            cases h; exact ihExec _ _ _ _ _ heq
          · rename_i st1 v heq
            split at h
            · cases h
            · rename_i st2 sg heq2
              cases h; exact (ihExec _ _ _ _ _ heq).trans (ihArgs _ _ _ _ _ heq2)
            · rename_i st2 vs heq2
              cases h; exact (ihExec _ _ _ _ _ heq).trans (ihArgs _ _ _ _ _ heq2)
    · -- execWhile
      intro c body ctx st acc st' r h
      simp only [execWhile] at h
      split at h
      · cases h
      · rename_i st1 sg heq
        cases h; exact ihExec _ _ _ _ _ heq
      · rename_i st1 cv heq
        split at h
        · -- boolean condition
          split at h
          · -- entered the loop
            have hc : Preserves st st1 (· = ctx) := ihExec _ _ _ _ _ heq
            split at h
            · cases h
            · rename_i st3 rv heq2
              have hb : Preserves st st3 (· = ctx) :=
                (hc.trans (Preserves.pushFrame st1 (some ctx) _)).trans
                  (ihSeq _ _ _ _ _ _ _ heq2)
              split at h
              · cases h; exact hb
              · exact hb.trans (ihWhile _ _ _ _ _ _ _ h)
            · rename_i st3 rv heq2
              exact ((hc.trans (Preserves.pushFrame st1 (some ctx) _)).trans
                (ihSeq _ _ _ _ _ _ _ heq2)).trans (ihWhile _ _ _ _ _ _ _ h)
            · rename_i st3 rv heq2
              cases h
              exact (hc.trans (Preserves.pushFrame st1 (some ctx) _)).trans
                (ihSeq _ _ _ _ _ _ _ heq2)
            · rename_i st3 rv sg hne1 hne2 heq2
              cases h
              exact (hc.trans (Preserves.pushFrame st1 (some ctx) _)).trans
                (ihSeq _ _ _ _ _ _ _ heq2)
          · cases h; exact ihExec _ _ _ _ _ heq
        · cases h; exact ihExec _ _ _ _ _ heq
    · -- execFor
      intro c upd body ctx st acc st' r h
      simp only [execFor] at h
      split at h
      · cases h
      · rename_i st1 sg heq
        cases h; exact ihExec _ _ _ _ _ heq
      · rename_i st1 cv heq
        split at h
        · split at h
          · -- entered the loop
            have hc : Preserves st st1 (· = ctx) := ihExec _ _ _ _ _ heq
            split at h
            · cases h
            · rename_i st3 rv heq2
              have hb : Preserves st st3 (· = ctx) :=
                (hc.trans (Preserves.pushFrame st1 (some ctx) _)).trans_fresh
                  hc.framesLen (ihSeq _ _ _ _ _ _ _ heq2)
              split at h
              · cases h
              · rename_i st4 uv hequ
                exact (hb.trans (ihExec _ _ _ _ _ hequ)).trans (ihFor _ _ _ _ _ _ _ _ h)
              · rename_i st4 hequ
                have hu : Preserves st st4 (· = ctx) := hb.trans (ihExec _ _ _ _ _ hequ)
                split at h
                · cases h
                · rename_i st5 uv hequ2
                  exact (hu.trans (ihExec _ _ _ _ _ hequ2)).trans (ihFor _ _ _ _ _ _ _ _ h)
                · rename_i st5 sg hequ2
                  cases h; exact hu.trans (ihExec _ _ _ _ _ hequ2)
              · rename_i st4 hequ
                cases h; exact hb.trans (ihExec _ _ _ _ _ hequ)
              · rename_i st4 sg hne1 hne2 hequ
                cases h; exact hb.trans (ihExec _ _ _ _ _ hequ)
            · rename_i st3 rv heq2
              have hb : Preserves st st3 (· = ctx) :=
                (hc.trans (Preserves.pushFrame st1 (some ctx) _)).trans_fresh
                  hc.framesLen (ihSeq _ _ _ _ _ _ _ heq2)
              split at h
              · cases h
              · rename_i st4 uv hequ
                exact (hb.trans (ihExec _ _ _ _ _ hequ)).trans (ihFor _ _ _ _ _ _ _ _ h)
              · rename_i st4 sg hequ
                cases h; exact hb.trans (ihExec _ _ _ _ _ hequ)
            · rename_i st3 rv heq2
              cases h
              exact (hc.trans (Preserves.pushFrame st1 (some ctx) _)).trans_fresh
                hc.framesLen (ihSeq _ _ _ _ _ _ _ heq2)
            · rename_i st3 rv sg hne1 hne2 heq2
              cases h
              exact (hc.trans (Preserves.pushFrame st1 (some ctx) _)).trans_fresh
                hc.framesLen (ihSeq _ _ _ _ _ _ _ heq2)
          · cases h; exact ihExec _ _ _ _ _ heq
        · cases h; exact ihExec _ _ _ _ _ heq
    · -- execDoWhile
      intro body c ctx st acc st' r h
      simp only [execDoWhile] at h
      have hpush : Preserves st (st.pushFrame (some ctx)).1 (· = ctx) :=
        Preserves.pushFrame st (some ctx) _
      split at h
      · cases h
      · rename_i st2 rv heq
        have hb : Preserves st st2 (· = ctx) :=
          hpush.trans_fresh le_rfl (ihSeq _ _ _ _ _ _ _ heq)
        split at h
        · cases h; exact hb
        · split at h
          · cases h
          · rename_i st3 sg heq2
            cases h; exact hb.trans (ihExec _ _ _ _ _ heq2)
          · rename_i st3 cv heq2
            have hcnd : Preserves st st3 (· = ctx) := hb.trans (ihExec _ _ _ _ _ heq2)
            split at h
            · exact hcnd.trans (ihDo _ _ _ _ _ _ _ h)
            · cases h; exact hcnd
      · rename_i st2 rv heq
        have hb : Preserves st st2 (· = ctx) :=
          hpush.trans_fresh le_rfl (ihSeq _ _ _ _ _ _ _ heq)
        split at h
        · cases h
        · rename_i st3 sg heq2
          cases h; exact hb.trans (ihExec _ _ _ _ _ heq2)
        · rename_i st3 cv heq2
          have hcnd : Preserves st st3 (· = ctx) := hb.trans (ihExec _ _ _ _ _ heq2)
          split at h
          · exact hcnd.trans (ihDo _ _ _ _ _ _ _ h)
          · cases h; exact hcnd
      · rename_i st2 rv heq
        cases h
        exact hpush.trans_fresh le_rfl (ihSeq _ _ _ _ _ _ _ heq)
      · rename_i st2 rv sg hne1 hne2 heq
        cases h
        exact hpush.trans_fresh le_rfl (ihSeq _ _ _ _ _ _ _ heq)
    · -- runFnBody
      intro ps body cctx args st st' r h
      simp only [runFnBody] at h
      have hpush : Preserves st (st.pushFrame (some cctx)).1 (fun _ => False) :=
        Preserves.pushFrame st (some cctx) _
      split at h
      · -- matching argument count
        split at h
        · cases h
        · rename_i st3 rv heq
          cases h
          exact hpush.trans_fresh le_rfl
            ((Preserves.bindParams _ _ _ _).trans (ihSeq _ _ _ _ _ _ _ heq))
        · rename_i st3 rv v heq
          cases h
          exact hpush.trans_fresh le_rfl
            ((Preserves.bindParams _ _ _ _).trans (ihSeq _ _ _ _ _ _ _ heq))
        · rename_i st3 rv sg hne heq
          cases h
          exact hpush.trans_fresh le_rfl
            ((Preserves.bindParams _ _ _ _).trans (ihSeq _ _ _ _ _ _ _ heq))
      · cases h; exact hpush
    · -- applyClos
      intro cid args st st' r h
      simp only [applyClos] at h
      split at h
      · cases h
      · rename_i cl heq
        split at h
        · -- arrow closure
          exact (Preserves.pushFrame st _ _).trans_fresh le_rfl
            ((Preserves.bindParamsOpt ..).trans (ihExec _ _ _ _ _ h))
        · -- function-literal closure
          split at h
          · -- pure: memoized
            split at h
            · cases h; exact Preserves.refl ..
            · split at h
              · cases h
              · rename_i st1 v heq2
                cases h
                exact (ihFn _ _ _ _ _ _ _ heq2).trans (Preserves.cacheInsert ..)
              · rename_i st1 sg heq2
                cases h; exact ihFn _ _ _ _ _ _ _ heq2
          · exact ihFn _ _ _ _ _ _ _ h

/-! ## 8. Small helper lemmas for the claim theorems -/

theorem getElem?_some_lt {α : Type} {l : List α} {i : Nat} {a : α}
    (h : l[i]? = some a) : i < l.length := by
  by_contra hge
  rw [List.getElem?_eq_none (by omega)] at h
  cases h

theorem assocFind_setEntry_self (k : String) (v : Value) :
    ∀ l : List (String × Value), assocFind k (setEntry k v l) = some v := by
  intro l
  induction l with
  | nil => simp [setEntry, assocFind]
  | cons p rest ih =>
    obtain ⟨k', v'⟩ := p
    by_cases hk : k' = k
    · subst hk; simp [setEntry, assocFind]
    · simp only [setEntry, if_neg hk, assocFind]
      exact ih

theorem lookupVar_some_lt {st : Store} {p : Nat} {n : String} {v : Value}
    (h : st.lookupVar p n = some v) : p < st.frames.length := by
  by_cases hp : p < st.frames.length
  · exact hp
  · exfalso
    simp only [Store.lookupVar] at h
    rw [List.getElem?_eq_none (by omega)] at h
    cases h

theorem lookupVar_setVar_self {st : Store} {i : Nat} (n : String) (v : Value)
    (h : i < st.frames.length) : (st.setVar i n v).lookupVar i n = some v := by
  simp only [Store.lookupVar, Store.setVar]
  rw [listModify_getElem?_self, List.getElem?_eq_getElem h]
  simp only [Option.map_some']
  exact assocFind_setEntry_self n v _

/-- Extract the store of an interpreter result (defaulting when the
fuel ran out); used to phrase concrete witnesses. -/
def resultStore (r : Option (Store × Exc)) (d : Store) : Store :=
  match r with
  | some p => p.1
  | none => d

/-- Extract the outcome of an interpreter result. -/
def resultExc (r : Option (Store × Exc)) : Option Exc :=
  r.map Prod.snd

/-- The frame a `createChildContext` call appends is a fresh
`newFrame` over the given parent, at index `st.frames.length`. -/
theorem pushFrame_getElem_new (st : Store) (p : Option Nat) :
    (st.pushFrame p).1.frames[st.frames.length]? = some (newFrame p) := by
  simp only [Store.pushFrame]
  rw [List.getElem?_append_right (le_refl _)]
  simp

/-! ## 9. Claim theorems -/

/-- C1: declaring `x` of kind `"number"` with the string initializer
`"hi"` makes the execution pass fail with the Type-Mismatch error
`Variable 'x' expected number, got string`, leaving the store (and thus
the binding for `x`) untouched; the inference pass also fails without
binding `x`, but with `Unsupported variable type: number`, not a type
mismatch — its `typeMap` is keyed by `"n_"`, `"s_"`, ... while
`varType` holds `"number"`, `"string"`, ..., so inference throws the
same unsupported-kind error for a well-typed `number` initializer too,
and indeed `declTypeMap` misses for every `varTypes` value. -/
theorem numberDecl_stringInit_behaviour :
    exec 9 (.varDecl "number" "x" (.lit (.str "hi"))) 0 Store.initial
      = some (Store.initial,
          .error (.err "Variable 'x' expected number, got string")) ∧
    (Store.initial).lookupVar 0 "x" = none ∧
    inferType (.varDecl "number" "x" (.lit (.str "hi"))) [[]]
      = .error "Unsupported variable type: number" ∧
    inferType (.varDecl "number" "x" (.lit (.num 5))) [[]]
      = .error "Unsupported variable type: number" ∧
    (∀ actual : Ty, declTypeMap "number" actual = none) ∧
    (∀ actual : Ty, declTypeMap "string" actual = none) ∧
    (∀ actual : Ty, declTypeMap "boolean" actual = none) ∧
    (∀ actual : Ty, declTypeMap "null" actual = none) ∧
    (∀ actual : Ty, declTypeMap "undefined" actual = none) ∧
    (∀ actual : Ty, declTypeMap "bigint" actual = none) ∧
    (∀ actual : Ty, declTypeMap "symbol" actual = none) ∧
    (∀ actual : Ty, declTypeMap "void" actual = none) ∧
    (∀ actual : Ty, declTypeMap "any" actual = none) ∧
    (∀ actual : Ty, declTypeMap "function" actual = none) ∧
    (∀ actual : Ty, declTypeMap "array" actual = none) ∧
    (∀ actual : Ty, declTypeMap "object" actual = none) :=
  ⟨rfl, rfl, rfl, rfl, fun _ => rfl, fun _ => rfl, fun _ => rfl, fun _ => rfl,
   fun _ => rfl, fun _ => rfl, fun _ => rfl, fun _ => rfl, fun _ => rfl,
   fun _ => rfl, fun _ => rfl, fun _ => rfl⟩

/-- The C6 counterexample program: `g` is bound to `true` in the root
frame; the while body declares `t` and then flips `g` to `false`. -/
def c6Store : Store := (Store.initial).setVar 0 "g" (.bool true)

/-- The while node of the C6 counterexample. -/
def c6Prog : Node :=
  .whileN (.varRef "g")
    [.varDecl "number" "t" (.lit (.num 1)), .assign "g" (.lit (.bool false))]

/-- C6: `WhileNode.execute` creates `loopCtx` but runs the body
statements in the *enclosing* context: after one iteration the body's
declaration of `t` has landed in the enclosing frame (index 0), while
the freshly created per-iteration child frame (index 1) holds no `t`.
The per-iteration scope exists but is dead. -/
theorem whileBody_declares_into_enclosing_frame :
    resultExc (exec 30 c6Prog 0 c6Store) = some (.ok (.bool false)) ∧
    (resultStore (exec 30 c6Prog 0 c6Store) c6Store).lookupVar 0 "t"
      = some (.num 1) ∧
    (resultStore (exec 30 c6Prog 0 c6Store) c6Store).frames.length = 2 ∧
    (resultStore (exec 30 c6Prog 0 c6Store) c6Store).lookupVar 1 "t" = none :=
  ⟨rfl, rfl, rfl, rfl⟩

/-- C7: `If`, `While` and `For` reject a non-boolean condition with the
hard error `Condition must be boolean`, but `DoWhileNode.execute`'s
repeat check does not: with the numeric condition `0` the loop body
runs once and the node returns normally (JS falsiness ends the loop),
and with the truthy numeric condition `2` the loop simply keeps
iterating (fuel runs out) — no error is ever raised. -/
theorem condition_boolean_checks_and_doWhile_gap :
    resultExc (exec 9 (.ifN (.lit (.num 1)) [] none) 0 Store.initial)
      = some (.error (.err "Condition must be boolean")) ∧
    resultExc (exec 9 (.whileN (.lit (.num 1)) []) 0 Store.initial)
      = some (.error (.err "Condition must be boolean")) ∧
    resultExc (exec 9 (.forN (.lit .undefV) (.lit (.num 1)) (.lit .undefV) [])
        0 Store.initial)
      = some (.error (.err "Condition must be boolean")) ∧
    resultExc (exec 9 (.doWhileN [.lit (.num 5)] (.lit (.num 0))) 0 Store.initial)
      = some (.ok (.num 5)) ∧
    resultExc (exec 9 (.doWhileN [] (.lit (.num 2))) 0 Store.initial) = none :=
  ⟨rfl, rfl, rfl, rfl, rfl⟩

/-- The C8 counterexample: executing an assignment to a name bound
nowhere (the fresh root context binds only the built-ins) succeeds,
returns the assigned value, and silently creates the binding in the
current frame — it does not fail as the claim states. -/
theorem assign_unbound_name_executes_normally :
    exec 9 (.assign "zz" (.lit (.num 1))) 0 Store.initial
      = some ((Store.initial).setVar 0 "zz" (.num 1), .ok (.num 1)) ∧
    (Store.initial).getVar 0 "zz" = some none ∧
    ((Store.initial).setVar 0 "zz" (.num 1)).lookupVar 0 "zz" = some (.num 1) :=
  ⟨rfl, rfl, rfl⟩

/-- C8 (amended): during inference an assignment looks the name up in
the type environment and fails with the unbound-name error if it is
absent; during execution no lookup happens at all — the assignment
evaluates its expression and writes the value into the current frame
unconditionally, so an unbound name is silently created rather than
reported. -/
theorem inferType_assign_eq (name : String) (e : Node) (env : TEnv) :
    inferType (.assign name e) env
      = (match getTypeE env name with
         | .error m => .error m
         | .ok currentType =>
           match inferType e env with
           | .error m => .error m
           | .ok (newType, env1) =>
             if compareTypes currentType newType then .ok (currentType, env1)
             else
               .error ("Type mismatch in assignment to '" ++ name ++ "': expected "
                 ++ jsonStringifyTy currentType ++ ", got "
                 ++ jsonStringifyTy newType)) := rfl

theorem assign_requires_binding_only_in_inference
    (env : TEnv) (name : String) (e : Node) (m : String)
    (hunbound : getTypeE env name = .error m) :
    inferType (.assign name e) env = .error m ∧
    (∀ fuel ctx st st1 v, exec fuel e ctx st = some (st1, .ok v) →
      exec (fuel+1) (.assign name e) ctx st
        = some (st1.setVar ctx name v, .ok v)) := by
  constructor
  · rw [inferType_assign_eq, hunbound]
  · intro fuel ctx st st1 v hx
    simp only [exec, hx]

/-- Witness for C8's amended claim at a concrete program: `zz` is bound
nowhere, inference reports the unbound name, execution silently binds. -/
theorem assign_requires_binding_witness :
    inferType (.assign "zz" (.lit (.num 1))) [[]]
      = .error "Undefined variable (type): zz" ∧
    exec 2 (.assign "zz" (.lit (.num 1))) 0 Store.initial
      = some ((Store.initial).setVar 0 "zz" (.num 1), .ok (.num 1)) := by
  have h := assign_requires_binding_only_in_inference [[]] "zz" (.lit (.num 1))
    "Undefined variable (type): zz" rfl
  exact ⟨h.1, h.2 1 0 Store.initial Store.initial (.num 1) rfl⟩

/-- C10: every frame — the root and every frame `createChildContext`
produces — runs `injectBuiltIns` at construction, so its own variable
record starts as exactly the ten built-in bindings (in injection
order); consequently a built-in name that is still locally bound
resolves in the frame itself, and `getVariable` never reaches an
ancestor — a same-named user binding in a parent frame is shadowed. -/
theorem builtins_injected_per_frame_and_shadow :
    (∀ p : Option Nat, (newFrame p).vars = builtinPairs) ∧
    (∀ (p : Option Nat) (n : String) (v : Value), (n, v) ∈ builtinPairs →
      assocFind n (newFrame p).vars = some v) ∧
    (∀ (st : Store) (p : Option Nat),
      ((st.pushFrame p).1.frames[st.frames.length]?) = some (newFrame p)) ∧
    (∀ (st : Store) (i : Nat) (n : String) (v : Value),
      st.lookupVar i n = some v → st.getVar i n = some (some v)) := by
  refine ⟨fun _ => rfl, ?_, ?_, ?_⟩
  · intro p n v h
    simp only [builtinPairs, List.mem_cons, List.not_mem_nil, or_false] at h
    rcases h with h | h | h | h | h | h | h | h | h | h <;> (cases h; rfl)
  · intro st p
    exact pushFrame_getElem_new st p
  · intro st i n v h
    simp only [Store.getVar, getVarChain]
    simp only [Store.lookupVar] at h
    cases he : st.frames[i]? with
    | none => rw [he] at h; cases h
    | some f =>
      rw [he] at h
      simp only [] at h
      simp only [h]

/-- Witness for C10: in a store whose root rebinds `print` to a user
number, a fresh child frame still resolves `print` to its own injected
built-in. -/
theorem builtins_shadow_witness :
    (((Store.initial).setVar 0 "print" (.num 1)).pushFrame (some 0)).1.getVar
        1 "print" = some (some (.builtin .print)) := by
  exact builtins_injected_per_frame_and_shadow.2.2.2 _ 1 "print" _ rfl

/-- C5: an `AssignmentNode` executed in a child context writes into the
child's own frame (`setVariable` targets the current frame), and by the
store-effect invariant nothing in the assignment — including the
evaluation of its right-hand side — rewrites the variable record of the
parent frame: the parent's visible binding for that name is exactly
what it was before (shadow-on-assign). -/
theorem assignment_shadows_parent_binding
    (fuel : Nat) (name : String) (e : Node) (c p : Nat) (st st' : Store)
    (v0 : Value) (out : Exc)
    (hparent : (st.frames[c]?).map Frame.parent = some (some p))
    (hpc : p ≠ c)
    (hbound : st.lookupVar p name = some v0)
    (hrun : exec fuel (.assign name e) c st = some (st', out)) :
    st'.lookupVar p name = some v0 ∧
    (∀ w, out = .ok w → st'.lookupVar c name = some w) := by
  have hpres : Preserves st st' (· = c) :=
    (execPreservesAll fuel).1 _ _ _ _ _ hrun
  have hplt : p < st.frames.length := lookupVar_some_lt hbound
  have hclt : c < st.frames.length := by
    cases he : st.frames[c]? with
    | none => rw [he] at hparent; cases hparent
    | some f => exact getElem?_some_lt he
  refine ⟨?_, ?_⟩
  · rw [hpres.lookupVar_eq hplt (by omega) name]
    exact hbound
  · cases fuel with
    | zero => cases hrun
    | succ fuel =>
      simp only [exec] at hrun
      split at hrun
      · cases hrun
      · cases hrun
        intro w hw; cases hw
      · rename_i st1 v heq
        cases hrun
        intro w hw
        obtain rfl : v = w := by injection hw
        exact lookupVar_setVar_self name v
          (lt_of_lt_of_le hclt ((execPreservesAll fuel).1 _ _ _ _ _ heq).framesLen)

/-- The C5 witness store: the root binds `y` to `1`, and frame 1 is a
child of the root. -/
def c5Store : Store :=
  (((Store.initial).setVar 0 "y" (.num 1)).pushFrame (some 0)).1

/-- Witness for C5: executing `y = 2` in the child frame leaves the
root's binding `y = 1` intact and creates `y = 2` in the child. -/
theorem assignment_shadows_witness :
    (resultStore (exec 3 (.assign "y" (.lit (.num 2))) 1 c5Store) c5Store).lookupVar
        0 "y" = some (.num 1) ∧
    (resultStore (exec 3 (.assign "y" (.lit (.num 2))) 1 c5Store) c5Store).lookupVar
        1 "y" = some (.num 2) := by
  have h := assignment_shadows_parent_binding 3 "y" (.lit (.num 2)) 1 0 c5Store
    (resultStore (exec 3 (.assign "y" (.lit (.num 2))) 1 c5Store) c5Store)
    (.num 1) (.ok (.num 2)) rfl (by decide) rfl rfl
  exact ⟨h.1, h.2 _ rfl⟩

/-- C3: the closure `toFunction` builds from a function literal.  A
call with the wrong number of arguments raises the hard error
`Argument count mismatch.` (the fresh local context is created first,
exactly as in the source); the local context is a fresh child frame of
the capturing context carrying the built-ins; with a matching count the
parameters are bound positionally and the body statements run in order
in that frame, and the call result is `undefined` on normal completion,
the `ReturnSignal`'s value when the body raised one (the signal stops
at the call boundary), and a re-raise of any other signal.  Invoking a
non-pure function-literal closure value runs exactly this function. -/
theorem toFunction_call_semantics
    (fuel : Nat) (ps : List String) (body : List Node) (cctx : Nat)
    (args : List Value) (st : Store) :
    (args.length ≠ ps.length →
      runFnBody (fuel+1) ps body cctx args st
        = some ((st.pushFrame (some cctx)).1,
            .error (.err "Argument count mismatch."))) ∧
    ((st.pushFrame (some cctx)).2 = st.frames.length ∧
      (st.pushFrame (some cctx)).1.frames[st.frames.length]?
        = some (newFrame (some cctx))) ∧
    (args.length = ps.length →
      ∀ st3 rv sig,
        execSeq fuel body (st.pushFrame (some cctx)).2
            (bindParams (st.pushFrame (some cctx)).1 (st.pushFrame (some cctx)).2
              ps args) .undefV
          = some (st3, rv, sig) →
        runFnBody (fuel+1) ps body cctx args st
          = some (st3,
              match sig with
              | none => .ok .undefV
              | some (.ret v) => .ok v
              | some s => .error s)) ∧
    (∀ cid c, st.clos[cid]? = some c → c.kind = .fnlit ps body false →
      applyClos (fuel+1) cid args st = runFnBody fuel ps body c.ctx args st) := by
  refine ⟨?_, ⟨rfl, pushFrame_getElem_new st (some cctx)⟩, ?_, ?_⟩
  · intro hne
    simp only [runFnBody, if_neg hne]
  · intro heqlen st3 rv sig hseq
    simp only [runFnBody, if_pos heqlen, hseq]
    cases sig with
    | none => rfl
    | some sg => cases sg <;> rfl
  · intro cid c hc hk
    obtain ⟨ck, cctx', cache⟩ := c
    simp only at hk
    subst hk
    simp [applyClos, hc]

/-- The C3 witness body: `return 7`. -/
def c3Body : List Node := [Node.retN (.lit (.num 7))]

/-- Witness for C3: calling with one argument returns `7` through the
swallowed `ReturnSignal`; calling with none raises the count error. -/
theorem toFunction_call_witness :
    runFnBody 6 ["a"] c3Body 0 [Value.num 1] Store.initial
      = some (bindParams ((Store.initial).pushFrame (some 0)).1 1 ["a"]
          [Value.num 1], .ok (.num 7)) ∧
    runFnBody 6 ["a"] c3Body 0 [] Store.initial
      = some (((Store.initial).pushFrame (some 0)).1,
          .error (.err "Argument count mismatch.")) := by
  have h1 := toFunction_call_semantics 5 ["a"] c3Body 0 [Value.num 1] Store.initial
  have h2 := toFunction_call_semantics 5 ["a"] c3Body 0 [] Store.initial
  exact ⟨h1.2.2.1 rfl _ _ _ rfl, h2.1 (by decide)⟩

/-- C4: the control-signal absorption discipline at the `While` and
`TryCatch` boundaries.  A `BreakSignal` from the loop body ends the
loop, which returns the last completed statement value normally; a
`ContinueSignal` only abandons the rest of the current iteration — the
loop re-enters its next round from the post-body store; `ReturnSignal`
and generic `Error`s propagate out of the loop unchanged.  `TryCatch`
catches precisely generic `Error`s, binding the caught error object to
the catch variable in a fresh child frame and running the catch block;
`ReturnSignal`, `BreakSignal` and `ContinueSignal` are re-raised
unchanged. -/
theorem signal_absorption_discipline
    (fuel : Nat) (c : Node) (body : List Node) (ctx : Nat) (st st1 st3 : Store)
    (acc rv : Value) (sig : Signal)
    (tb cb : List Node) (cv : String) (ctx2 : Nat) (stt stt2 : Store)
    (v2 : Value) (sig2 : Signal)
    (hcond : exec fuel c ctx st = some (st1, .ok (.bool true)))
    (hbody : execSeq fuel body ctx (st1.pushFrame (some ctx)).1 acc
      = some (st3, rv, some sig))
    (htry : execSeq fuel tb (stt.pushFrame (some ctx2)).2
        (stt.pushFrame (some ctx2)).1 .undefV = some (stt2, v2, some sig2)) :
    (sig = .brk →
      execWhile (fuel+1) c body ctx st acc = some (st3, .ok rv)) ∧
    (sig = .cont →
      execWhile (fuel+1) c body ctx st acc = execWhile fuel c body ctx st3 rv) ∧
    (∀ v, sig = .ret v →
      execWhile (fuel+1) c body ctx st acc = some (st3, .error (.ret v))) ∧
    (∀ m, sig = .err m →
      execWhile (fuel+1) c body ctx st acc = some (st3, .error (.err m))) ∧
    (∀ m, sig2 = .err m →
      exec (fuel+1) (.tryCatchN tb cv cb) ctx2 stt
        = (match execSeq fuel cb (stt2.pushFrame (some ctx2)).2
              ((stt2.pushFrame (some ctx2)).1.setVar (stt2.pushFrame (some ctx2)).2
                cv (.exn m)) .undefV with
           | none => none
           | some (st5, w, none) => some (st5, .ok w)
           | some (st5, _, some s) => some (st5, .error s))) ∧
    (sig2 = .brk ∨ sig2 = .cont ∨ (∃ v, sig2 = .ret v) →
      exec (fuel+1) (.tryCatchN tb cv cb) ctx2 stt = some (stt2, .error sig2)) := by
  refine ⟨?_, ?_, ?_, ?_, ?_, ?_⟩
  · rintro rfl
    simp [execWhile, hcond, hbody]
  · rintro rfl
    simp [execWhile, hcond, hbody]
  · rintro v rfl
    simp [execWhile, hcond, hbody]
  · rintro m rfl
    simp [execWhile, hcond, hbody]
  · rintro m rfl
    simp [exec, htry]
  · rintro (rfl | rfl | ⟨v, rfl⟩) <;> simp [exec, htry]

/-- The store after the C4 witness try block has raised `boom`. -/
def c4Try : Store := ((Store.initial).pushFrame (some 0)).1

/-- The store after the C4 witness catch block bound `e`. -/
def c4Catch : Store :=
  ((c4Try.pushFrame (some 0)).1).setVar (c4Try.pushFrame (some 0)).2 "e"
    (.exn "boom")

/-- Witness for C4: a `break` in a while body ends the loop normally,
and a raised error is caught by `TryCatch` with the error object bound
to `e` and read back by the catch block. -/
theorem signal_absorption_witness :
    execWhile 6 (.lit (.bool true)) [Node.brkN] 0 Store.initial .undefV
      = some (((Store.initial).pushFrame (some 0)).1, .ok .undefV) ∧
    exec 6 (.tryCatchN [.errN (.lit (.str "boom"))] "e" [.varRef "e"]) 0
        Store.initial = some (c4Catch, .ok (.exn "boom")) := by
  have h := signal_absorption_discipline 5 (.lit (.bool true)) [Node.brkN] 0
    Store.initial Store.initial (((Store.initial).pushFrame (some 0)).1)
    .undefV .undefV .brk
    [Node.errN (.lit (.str "boom"))] [Node.varRef "e"] "e" 0 Store.initial c4Try
    .undefV (.err "boom") rfl rfl rfl
  refine ⟨h.1 rfl, ?_⟩
  exact (h.2.2.2.2.1 "boom" rfl).trans rfl

/-- C9: the `memoize` wrapper on a `pure` function literal.  If a first
call on argument list `args` misses the cache and returns normally,
then (a) that call ran the body once and cached its result under the
canonical serialization of `args`; (b) every repeat call with the same
argument list returns the cached value and leaves the store completely
untouched — no local frame is created, the body is not re-entered; and
(c) a call whose arguments serialize to a key that is still uncached
takes the miss path: it runs the body afresh and caches the new
result. -/
theorem pure_memoization
    (fuel : Nat) (cid : Nat) (args : List Value) (st st1 : Store) (v : Value)
    (c : Closure) (ps : List String) (body : List Node)
    (hclos : st.clos[cid]? = some c)
    (hkind : c.kind = .fnlit ps body true)
    (hmiss : assocFind (serializeArgs args) c.cache = none)
    (hrun : applyClos (fuel+1) cid args st = some (st1, .ok v)) :
    (∃ st0, runFnBody fuel ps body c.ctx args st = some (st0, .ok v) ∧
      st1 = st0.cacheInsert cid (serializeArgs args) v) ∧
    (∀ fuel2, applyClos (fuel2+1) cid args st1 = some (st1, .ok v)) ∧
    (∀ (args2 : List Value) (fuel2 : Nat),
      assocFind (serializeArgs args2) (st1.cacheOf cid) = none →
      applyClos (fuel2+1) cid args2 st1
        = (match runFnBody fuel2 ps body c.ctx args2 st1 with
           | none => none
           | some (s2, .ok w) =>
             some (s2.cacheInsert cid (serializeArgs args2) w, .ok w)
           | some (s2, .error sg) => some (s2, .error sg))) := by
  obtain ⟨ck, cctx, cache⟩ := c
  simp only at hkind hmiss
  subst hkind
  simp only [applyClos, hclos, hmiss] at hrun
  cases hres : runFnBody fuel ps body cctx args st with
  | none => rw [hres] at hrun; cases hrun
  | some q =>
    obtain ⟨st0, exc0⟩ := q
    rw [hres] at hrun
    cases exc0 with
    | error sg => simp at hrun
    | ok v0 =>
      simp only [if_true, Option.some.injEq, Prod.mk.injEq] at hrun
      obtain ⟨hst, hexc⟩ := hrun
      obtain rfl : v0 = v := by injection hexc
      subst hst
      -- the closure after the first call: same code, extended cache
      have hpres : Preserves st st0 (fun _ => False) :=
        (execPreservesAll fuel).2.2.2.2.2.2.1 _ _ _ _ _ _ _ hres
      have hcidlt : cid < st.clos.length := getElem?_some_lt hclos
      have hkc := hpres.closEq cid hcidlt
      rw [hclos] at hkc
      refine ⟨⟨st0, rfl, rfl⟩, ?_⟩
      cases hc0 : st0.clos[cid]? with
      | none => rw [hc0] at hkc; cases hkc
      | some c0 =>
        rw [hc0] at hkc
        simp only [Option.map_some', Option.some.injEq, Prod.mk.injEq] at hkc
        obtain ⟨ck0, cx0, cache0⟩ := c0
        simp only at hkc
        obtain ⟨hk0, hx0⟩ := hkc
        subst hk0
        subst hx0
        have hc1 : (st0.cacheInsert cid (serializeArgs args) v0).clos[cid]?
            = some ⟨.fnlit ps body true, cx0,
                setEntry (serializeArgs args) v0 cache0⟩ := by
          simp only [Store.cacheInsert]
          rw [listModify_getElem?_self, hc0]
          rfl
        constructor
        · intro fuel2
          simp only [applyClos, hc1, if_true, assocFind_setEntry_self]
        · intro args2 fuel2 hmiss2
          have hco : (st0.cacheInsert cid (serializeArgs args) v0).cacheOf cid
              = setEntry (serializeArgs args) v0 cache0 := by
            simp only [Store.cacheOf, hc1]
            rfl
          rw [hco] at hmiss2
          simp only [applyClos, hc1, if_true, hmiss2]

/-- The C9 witness closure: a pure function literal `(a) => return 7`. -/
def c9St0 : Store :=
  ((Store.initial).allocClos (.fnlit ["a"] [Node.retN (.lit (.num 7))] true) 0).1

/-- The store after the first call of the C9 witness closure. -/
def c9St1 : Store := resultStore (applyClos 9 0 [Value.num 1] c9St0) c9St0

/-- Witness for C9: after the first call on `[1]` cached `7`, a repeat
call on `[1]` needs only one unit of fuel (no body execution) and
returns the cached `7` with the store exactly unchanged. -/
theorem pure_memoization_witness :
    applyClos 1 0 [Value.num 1] c9St1 = some (c9St1, .ok (.num 7)) := by
  have h := pure_memoization 8 0 [Value.num 1] c9St0 c9St1 (.num 7)
    ⟨.fnlit ["a"] [Node.retN (.lit (.num 7))] true, 0, []⟩
    ["a"] [Node.retN (.lit (.num 7))] rfl rfl rfl rfl
  exact h.2.1 0

end Intrear
